import Mathlib

/-!
# A verification model of pycpp

This file contains a shallow embedding in Lean 4 of the preprocessing engine
implemented in `src/pycpp.py` (and, for one equivalence question, the older
utility module `cpreproc_utils.py`) of the pycpp repository, together with
theorems settling a list of claims about the engine.

Modelling conventions:

* Python strings are modelled as `List Char` (`Str` below).  All the regular
  expressions compiled by the source use `re.ASCII`, so the ASCII reading of
  character classes (`\s`, `\w`, ...) is the faithful one.
* Python regular-expression substitutions are modelled by `reSubM`, a generic
  left-to-right non-overlapping scanner parameterised by a matcher function;
  each concrete pattern of the source becomes one matcher.  The patterns used
  by the source are deterministic (their character classes are disjoint from
  the literals that follow them), so greedy matching without backtracking is
  exact.
* Python integer positions with the `-1` failure sentinel are modelled by
  `Int`-valued functions (`findIn`, `rfindIn`, ...).
* Mutating methods on the engine object become state-passing functions over
  `EngineState`.  The global `log` object of the source is modelled by the
  `errlog` field (messages produced by `log.err`; purely informational
  `log.msg`/`log.dbg` output carries no program state and is not modelled).
* The recursive macro expander contains a genuinely unbounded `while` loop,
  so the expander family of functions takes an explicit `fuel` argument and
  returns `none` when the step budget is exhausted; a computation that
  returns `none` for every fuel therefore diverges in the source.
-/

set_option maxRecDepth 4000

abbrev Str : Type := List Char

/-- ASCII whitespace, the `re.ASCII` reading of `\s` and of the default set
stripped by Python `str.strip()`. -/
def isPySpace (c : Char) : Bool :=
  c == ' ' || c == '\t' || c == '\n' || c == '\x0d' || c == '\x0b' || c == '\x0c'

/-- The `re.ASCII` reading of `\w`: letters, digits and underscore. -/
def isWordChar (c : Char) : Bool :=
  c.isAlphanum || c == '_'

/-- Horizontal whitespace, the character class `[ \t]` used all over the
source's regular expressions. -/
def isHTab (c : Char) : Bool :=
  c == ' ' || c == '\t'

/-- Python `str.lstrip()` (ASCII whitespace). -/
def lstrip (s : Str) : Str := s.dropWhile isPySpace

/-- Python `str.rstrip()` (ASCII whitespace). -/
def rstrip (s : Str) : Str := (s.reverse.dropWhile isPySpace).reverse

/-- Python `str.strip()` (ASCII whitespace). -/
def pyStrip (s : Str) : Str := lstrip (rstrip s)

/-- The line-break characters recognised by Python `str.splitlines`. -/
def isLineBreak (c : Char) : Bool :=
  c == '\n' || c == '\x0d' || c == '\x0b' || c == '\x0c' ||
  c == '\x1c' || c == '\x1d' || c == '\x1e' || c == '\x85' ||
  c == '\u2028' || c == '\u2029'

/-- Python `str.splitlines()`: split at every line break, `"\r\n"` counting
as a single break, with no empty final line for a trailing break. -/
def splitlines : Str → List Str
  | [] => []
  | [c] => if isLineBreak c then [[]] else [[c]]
  | c :: d :: t =>
    if c = '\x0d' ∧ d = '\n' then [] :: splitlines t
    else if isLineBreak c then
      [] :: splitlines (d :: t)
    else
      match splitlines (d :: t) with
      | [] => [[c]]
      | l :: ls => (c :: l) :: ls

/-- Does `sub` occur in `s` starting exactly at index `i`? -/
def matchesAt (s sub : Str) (i : Nat) : Bool :=
  sub.isPrefixOf (s.drop i)

/-- Python `s.find(sub, start, endPos)`: the least index `i ≥ start` such
that `sub` occurs at `i` and fits before `endPos`, or `-1`. -/
def findIn (s sub : Str) (start endPos : Nat) : Int :=
  match ((List.range (endPos + 1)).filter fun i =>
      start ≤ i && i + sub.length ≤ endPos && matchesAt s sub i).head? with
  | some i => (i : Int)
  | none => -1

/-- Python `s.rfind(sub, start, endPos)`: the greatest such index, or `-1`. -/
def rfindIn (s sub : Str) (start endPos : Nat) : Int :=
  match ((List.range (endPos + 1)).filter fun i =>
      start ≤ i && i + sub.length ≤ endPos && matchesAt s sub i).getLast? with
  | some i => (i : Int)
  | none => -1

/-- Python slice `s[b:e]` (for `0 ≤ b ≤ e`; out-of-range indices clamp). -/
def pySlice (s : Str) (b e : Nat) : Str := (s.take e).drop b

/-- Python `sub in s` (substring containment). -/
def containsSub (s sub : Str) : Bool :=
  0 ≤ findIn s sub 0 s.length

/-- Worker for `replaceAll`, structurally recursive on a fuel bound so that
it reduces in the kernel.  Each step consumes at least one character of `s`,
so with fuel `s.length` the `0` fallback is never reached. -/
def replaceAllGo (old new : Str) : Nat → Str → Str
  | 0, s => s
  | n + 1, s =>
    if old ≠ [] ∧ old.isPrefixOf s then
      new ++ replaceAllGo old new n (s.drop old.length)
    else
      match s with
      | [] => []
      | c :: t => c :: replaceAllGo old new n t

/-- Python `s.replace(old, new)` for a non-empty `old`: left-to-right,
non-overlapping. -/
def replaceAll (s old new : Str) : Str :=
  replaceAllGo old new s.length s

/--
Worker for `reSubM`: generic model of Python
`re.sub(pattern, repl, s, 0, re.ASCII + re.MULTILINE)` for the deterministic
patterns used by the source.  The matcher `mf` receives a flag telling
whether the current position is a line start (for `^` under `re.MULTILINE`)
and the remaining input; it returns `some (n, r)` when the pattern matches a
prefix of length `n` of the remaining input, with replacement `r`.  Scanning
is left-to-right and non-overlapping; an empty match emits its replacement
and copies one character, as `re.sub` does.  Structurally recursive on a
fuel bound (every step consumes at least one character, so fuel
`s.length + 1` is enough and the `0` fallback is never reached).
-/
def reSubGo (mf : Bool → Str → Option (Nat × Str)) : Nat → Bool → Str → Str
  | 0, _, s => s
  | _ + 1, atStart, [] =>
    match mf atStart [] with
    | some (_, r) => r
    | none => []
  | n + 1, atStart, c :: t =>
    match mf atStart (c :: t) with
    | some (k + 1, r) =>
      r ++ reSubGo mf n ((((c :: t).take (k + 1)).getLast?) == some '\n') ((c :: t).drop (k + 1))
    | some (0, r) => r ++ c :: reSubGo mf n (c == '\n') t
    | none => c :: reSubGo mf n (c == '\n') t

/-- Model of `re.sub` over the whole string (position 0 is a line start). -/
def reSubM (mf : Bool → Str → Option (Nat × Str)) (s : Str) : Str :=
  reSubGo mf (s.length + 1) true s

/-- The apostrophe character (spelled via its code point). -/
def squote : Char := Char.ofNat 39

/-!
## CodeFormatter (`src/pycpp.py`, class `CodeFormatter`)

Static text utilities.  Each function is translated from the method of the
same name; the `RE_PTRN_*` class attributes become the matcher functions
below.
-/

namespace CodeFormatter

/-- Matcher for `RE_PTRN_LINE_CONT = re.compile(r"[ \t]*\\[ \t]*\n", re.ASCII)`:
horizontal whitespace, a backslash, horizontal whitespace, a newline.  The
classes `[ \t]`, `\\` and `\n` are pairwise disjoint, so greedy matching is
exact. -/
def lineContM (repl : Str) : Bool → Str → Option (Nat × Str) := fun _ s =>
  let w1 := s.takeWhile isHTab
  match s.drop w1.length with
  | '\\' :: r2 =>
    let w2 := r2.takeWhile isHTab
    (match r2.drop w2.length with
     | '\n' :: _ => some (w1.length + 1 + w2.length + 1, repl)
     | _ => none)
  | _ => none

/-- Model of `CodeFormatter.remove_line_escapes` (the regex version of `src/pycpp.py`):
`RE_PTRN_LINE_CONT.sub("\n" if keep_newlines else "", code)`. -/
def remove_line_escapes (code : Str) (keep_newlines : Bool) : Str :=
  reSubM (lineContM (if keep_newlines then ['\n'] else [])) code

/-- One iteration of the `while tab_pos >= 0` loop of `replace_tabs`
per fuel unit: replace the first tab of `line` by
`(tab_size - tab_pos % tab_size)` spaces, with the default `tab_size = 4`
used by `process_code`.  Fuel `line.count '\t'` is exact: each step removes
one tab and introduces none. -/
def replaceTabsLineGo : Nat → Str → Str
  | 0, line => line
  | n + 1, line =>
    match line.findIdx? (· == '\t') with
    | none => line
    | some i => replaceTabsLineGo n (line.take i ++ List.replicate (4 - i % 4) ' ' ++ line.drop (i + 1))

/-- Model of `CodeFormatter.replace_tabs` (default `tab_size = 4`): per line, expand
each tab to the next tab stop; lines are re-joined with `"\n"`, so the
result always ends with a newline (if nonempty). -/
def replace_tabs (code : Str) : Str :=
  (splitlines code).foldl (fun out line => out ++ replaceTabsLineGo (line.count '\t') line ++ ['\n']) []

/-- Model of `CodeFormatter.remove_empty_lines`: keep the lines with non-whitespace
content, joined with `"\n"`. -/
def remove_empty_lines (code : Str) : Str :=
  List.intercalate ['\n'] ((splitlines code).filter fun l => !(pyStrip l).isEmpty)

/-- The replacement function `__repl_with_spaces`: every non-newline
character of the match becomes one space. -/
def commentSpaces (m : Str) : Str := m.map fun c => if c == '\n' then '\n' else ' '

/-- The replacement function `__repl_with_newlines`: `"\n" * match.count("\n")`. -/
def commentNewlines (m : Str) : Str := m.filter (· == '\n')

/-- Matcher for `RE_PTRN_MLINE_CMNT = re.compile(r"/\*.*?\*/", re.ASCII + re.DOTALL)`:
a `/*` opener, then (non-greedily) everything up to the first later `*/`. -/
def mlineM (f : Str → Str) : Bool → Str → Option (Nat × Str) := fun _ s =>
  if ("/*".toList).isPrefixOf s then
    let j := findIn s ("*/".toList) 2 s.length
    if 0 ≤ j then some (j.toNat + 2, f (s.take (j.toNat + 2))) else none
  else none

/-- Matcher for `RE_PTRN_SLINE_CMNT = re.compile(r"[ \t]*//[^\n]*", re.ASCII)`. -/
def slineM (f : Str → Str) : Bool → Str → Option (Nat × Str) := fun _ s =>
  let w := s.takeWhile isHTab
  let r := s.drop w.length
  if ("//".toList).isPrefixOf r then
    let n := w.length + 2 + ((r.drop 2).takeWhile (· != '\n')).length
    some (n, f (s.take n))
  else none

/-- Model of `CodeFormatter.remove_comments`.  Note the shape of the source: an
`if replace_with_spaces: ... elif replace_with_newlines: ...` with **no
else branch**, so with both flags false (the default) the function returns
`code` unchanged — no comment is removed. -/
def remove_comments (code : Str) (replace_with_spaces replace_with_newlines : Bool) : Str :=
  if replace_with_spaces then
    reSubM (slineM commentSpaces) (reSubM (mlineM commentSpaces) code)
  else if replace_with_newlines then
    reSubM (slineM commentNewlines) (reSubM (mlineM commentNewlines) code)
  else code

/-- The character class `[uUlLfF]` of `RE_PTRN_NUM_CONST`. -/
def isNumSuffix (c : Char) : Bool :=
  c == 'u' || c == 'U' || c == 'l' || c == 'L' || c == 'f' || c == 'F'

/-- Matcher for `RE_PTRN_NUM_CONST = re.compile(r"(?P<num>\d[\d.]*\d*)(?:[uUlLfF]+)", re.ASCII)`:
the group `num` is a digit followed by digits/dots, and the (discarded)
suffix is a nonempty run of `[uUlLfF]`; the classes are disjoint, so greedy
matching is exact.  The replacement is the group `num`. -/
def numSuffixM : Bool → Str → Option (Nat × Str) := fun _ s =>
  match s with
  | c :: _ =>
    if c.isDigit then
      let run := s.takeWhile fun d => d.isDigit || d == '.'
      let suf := (s.drop run.length).takeWhile isNumSuffix
      if suf.isEmpty then none else some (run.length + suf.length, run)
    else none
  | [] => none

/-- Model of `CodeFormatter.remove_num_type_suffix`. -/
def remove_num_type_suffix (code : Str) : Str := reSubM numSuffixM code

/-- Model of `CodeFormatter.get_enclosed_subst_pos` with its default arguments
`start_str = "("`, `end_str = ")"` and
`ignored_prefix_re_ptrn = re.compile(r"\s*", re.ASCII)` — the only form the
engine ever instantiates.  The source guards on
`ignored_prefix_re_ptrn.match(code, start_pos, s_pos) is not None`; the
pattern `\s*` matches the empty string at any anchor position, so this
guard is always satisfied when `s_pos >= 0` and the condition reduces to
`s_pos >= 0`.  The `while` loop advancing `e_pos` over successive `")"`
occurrences until the slice `code[s_pos : e_pos + 1]` has equal `"("` and
`")"` counts is rendered as: the first `")"` position `p ≥ s_pos + 1` whose
slice balances (`-1` when there is none, in which case the source also
resets `s_pos` to `-1`). -/
def closeSearch (code : Str) (sn : Nat) : Int :=
  match ((List.range code.length).filter fun p =>
      sn + 1 ≤ p && code.get? p == some ')' &&
      ((pySlice code sn (p + 1)).count '(' == (pySlice code sn (p + 1)).count ')')).head? with
  | some p => (p : Int)
  | none => -1

/-- See the doc comment above (`closeSearch` is the `while` loop over the
successive `")"` candidates). -/
def get_enclosed_subst_pos (code : Str) (start_pos : Nat) : Int × Int :=
  let s_pos := findIn code ['('] start_pos code.length
  if 0 ≤ s_pos then
    let e_pos := closeSearch code s_pos.toNat
    if e_pos < 0 then (-1, e_pos) else (s_pos, e_pos)
  else (s_pos, -1)

/-- Model of `CodeFormatter.is_in_comment`. -/
def is_in_comment (code : Str) (pos : Int) : Bool :=
  if 0 ≤ pos ∧ pos < (code.length : Int) then
    let p := pos.toNat
    let c1 := rfindIn code ("/*".toList) 0 p
    if 0 ≤ c1 && findIn code ("*/".toList) c1.toNat p < 0 then true
    else
      let c2 := rfindIn code ("//".toList) 0 p
      0 ≤ c2 && findIn code ['\n'] c2.toNat p < 0
  else false

/-- Model of `CodeFormatter.is_in_string`: count double and single quotes from the
start of the current line up to `pos`; an odd count means "inside a
string". -/
def is_in_string (code : Str) (pos : Int) : Bool :=
  if 0 ≤ pos ∧ pos < (code.length : Int) then
    let p := pos.toNat
    let nl := (rfindIn code ['\n'] 0 p + 1).toNat
    let seg := pySlice code nl p
    seg.count '"' % 2 == 1 || seg.count squote % 2 == 1
  else false

end CodeFormatter

/-!
## Engine data model

`Logger.ErrSeverity`, the error messages produced through `log.err`, and the
data classes of `src/pycpp.py`.  Only `log.err` output is program-relevant
state; it is modelled as a growing list of `(severity, kind)` entries.
-/

/-- Model of `Logger.ErrSeverity`. -/
inductive Severity where
  | INFO
  | WARNING
  | CRITICAL
  | SEVERE
deriving DecidableEq, Repr

/-- The distinct `log.err` call sites of the engine. -/
inductive ErrKind where
  | unexpected_endif
  | unterm_comment
  | unterm_if
  | depth_limit
  | missing_args
  | file_not_found
  | body_not_detected
deriving DecidableEq, Repr

abbrev LogEntry := Severity × ErrKind

/-- Model of `ConditionManager.BranchState`. -/
inductive BranchState where
  | ACTIVE
  | SEARCH
  | IGNORE
deriving DecidableEq, Repr

/-- The mutable state of a `ConditionManager`: the current branch state and
the stack of parent states.  Python pushes with `list.append` and pops from
the same end; here the top of the stack is the head of the list. -/
structure CondMngr where
  branch_state : BranchState
  branch_state_stack : List BranchState
deriving DecidableEq, Repr

namespace ConditionManager

/-- Model of `ConditionManager.__init__` / `reset`. -/
def init : CondMngr := ⟨.ACTIVE, []⟩

/-- Property `branch_depth`. -/
def branch_depth (cm : CondMngr) : Nat := cm.branch_state_stack.length

/-- Property `branch_active`. -/
def branch_active (cm : CondMngr) : Bool := cm.branch_state == .ACTIVE

/-- Property `branch_search_active`: state in `(SEARCH, ACTIVE)`. -/
def branch_search_active (cm : CondMngr) : Bool :=
  cm.branch_state == .SEARCH || cm.branch_state == .ACTIVE

/-- Model of `ConditionManager.enter_if`. -/
def enter_if (cm : CondMngr) (cond : Bool) : CondMngr :=
  let stack := cm.branch_state :: cm.branch_state_stack
  if cm.branch_state == .ACTIVE then
    if !cond then ⟨.SEARCH, stack⟩ else ⟨.ACTIVE, stack⟩
  else
    ⟨.IGNORE, stack⟩

/-- Model of `ConditionManager.enter_elif`. -/
def enter_elif (cm : CondMngr) (cond : Bool) : CondMngr :=
  if cm.branch_state == .SEARCH then
    if cond then ⟨.ACTIVE, cm.branch_state_stack⟩ else cm
  else
    ⟨.IGNORE, cm.branch_state_stack⟩

/-- Model of `ConditionManager.exit_if`: pop when the stack is nonempty, otherwise
report a CRITICAL "Unexpected #endif detected" error and leave the state
unchanged. -/
def exit_if (cm : CondMngr) : CondMngr × Option LogEntry :=
  match cm.branch_state_stack with
  | s :: rest => (⟨s, rest⟩, none)
  | [] => (cm, some (Severity.CRITICAL, ErrKind.unexpected_endif))

end ConditionManager

/-- Model of `CodeType`. -/
inductive CodeType where
  | CODE
  | DIRECTIVE
  | COMMENT
  | SPACE
deriving DecidableEq, Repr

/-- The state of a `PreprocOutput` object. -/
structure OutState where
  last_space : Str
  last_comment : Str
  non_empty : Bool
  code : Str
  code_all : Str
deriving DecidableEq, Repr

/-- Model of `PreprocOutput.__init__` / `reset`. -/
def initOut : OutState := ⟨[], [], false, [], []⟩

/-- Model of `PreprocOutput.add_code_part`: `code_part + "\n"` is appended to
`code_all` unconditionally, then the four `CodeType` cases update the
trimmed stream `code` and the pending `last_space` / `last_comment`. -/
def add_code_part (o : OutState) (code_part : Str) (code_type : CodeType) : OutState :=
  let o := { o with code_all := o.code_all ++ code_part ++ ['\n'] }
  match code_type with
  | .SPACE =>
    { o with last_space := if o.non_empty then code_part ++ ['\n'] else o.last_space,
             last_comment := [] }
  | .COMMENT =>
    { o with last_comment := o.last_comment ++ code_part ++ ['\n'] }
  | .DIRECTIVE =>
    { o with last_space := [], last_comment := [] }
  | .CODE =>
    { o with code := o.code ++ o.last_space ++ o.last_comment ++ code_part ++ ['\n'],
             last_space := [], last_comment := [], non_empty := true }

/-- Model of `Macro`: identifier, parameter names, body. -/
structure Macro where
  identifier : Str
  args : List Str
  body : Str
deriving DecidableEq, Repr

/-- The full mutable state of a `PyCpp` engine object (`self.__file_io`,
`self.__output`, `self.__cond_mngr`, `self.macros`) together with the
`log.err` entries emitted so far.  The macro dictionary is an
insertion-ordered list with unique identifiers, matching a Python `dict`. -/
structure EngineState where
  macros : List Macro
  cond : CondMngr
  incl_dir_paths : List Str
  output : OutState
  errlog : List LogEntry
deriving DecidableEq, Repr

/-- A freshly constructed `PyCpp()` (the `FileIO` include list starts as
`[Path("")]`). -/
def initEngine : EngineState :=
  ⟨[], ConditionManager.init, [[]], initOut, []⟩

/-- Append one `log.err` entry. -/
def logErr (st : EngineState) (e : LogEntry) : EngineState :=
  { st with errlog := st.errlog ++ [e] }

/-- Model of `ident in self.macros` (dict key membership). -/
def macroDefined (table : List Macro) (ident : Str) : Bool :=
  table.any (·.identifier == ident)

/-- Model of `self.macros[ident] = m`: replace in place if the key exists (a Python
dict keeps the original insertion position), else append. -/
def macroUpsert (table : List Macro) (m : Macro) : List Macro :=
  if macroDefined table m.identifier then
    table.map fun e => if e.identifier == m.identifier then m else e
  else
    table ++ [m]

/-- Model of `del self.macros[ident]`. -/
def macroRemove (table : List Macro) (ident : Str) : List Macro :=
  table.filter (·.identifier != ident)

/-!
## PreprocInput (`yield_code_parts`)

The input chunker: split the source into rstripped physical lines, merge
continuation runs, multi-line comments and blank runs, and classify each
resulting segment.  The generator becomes a function returning the list of
`(CodeType, text)` segments plus the `log.err` entries it produced (an
unterminated multi-line comment).
-/

/-- The continuation-merging inner `while` of `yield_code_parts`: keep
accumulating rstripped lines while they end with a backslash. -/
def collectCont : List Str → List Str × List Str
  | [] => ([], [])
  | l :: t =>
    let r := rstrip l
    if ['\\'].isSuffixOf r then
      let (m, rest) := collectCont t
      (r :: m, rest)
    else ([r], t)

/-- The comment-merging inner `while`: accumulate until a line contains
`*/`; if the input runs out first the `while ... else` reports an
unterminated-comment CRITICAL error. -/
def collectCmnt : List Str → List Str × List Str × Bool
  | [] => ([], [], true)
  | l :: t =>
    let r := rstrip l
    if containsSub r ("*/".toList) then ([r], t, false)
    else
      let (m, rest, e) := collectCmnt t
      (r :: m, rest, e)

/-- The blank-run inner `while`: consume further whitespace-only lines,
adding an empty string for each. -/
def collectBlank : List Str → List Str × List Str
  | [] => ([], [])
  | l :: t =>
    if (pyStrip l).isEmpty then
      let (m, rest) := collectBlank t
      (([] : Str) :: m, rest)
    else ([], l :: t)

/-- Segment-kind classification of `yield_code_parts` on the stripped
joined text. -/
def classifySeg (out_code : Str) : CodeType :=
  let st := pyStrip out_code
  if ['#'].isPrefixOf st then .DIRECTIVE
  else if st.isEmpty then .SPACE
  else if (("/*".toList).isPrefixOf st && ("*/".toList).isSuffixOf st) ||
          ("//".toList).isPrefixOf st then .COMMENT
  else .CODE

/-- The accumulation step at the head line of `yield_code_parts`: the
continuation / multi-line-comment / blank-run cases, returning the extra
lines, the remaining input and the log entries produced. -/
def yieldStep (in_line : Str) (rest : List Str) :
    List Str × List Str × List LogEntry :=
  if ['\\'].isSuffixOf in_line then
    ((collectCont rest).1, (collectCont rest).2, [])
  else if containsSub in_line ("/*".toList) && !containsSub in_line ("*/".toList) then
    ((collectCmnt rest).1, (collectCmnt rest).2.1,
      if (collectCmnt rest).2.2 then [(Severity.CRITICAL, ErrKind.unterm_comment)] else [])
  else if in_line.isEmpty then
    ((collectBlank rest).1, (collectBlank rest).2, [])
  else ([], rest, [])

/-- The outer `while line_idx < code_lines_num` loop of `yield_code_parts`,
structurally recursive on a fuel bound; every iteration consumes at least
the current line, so fuel `lines.length` is exact. -/
def yieldGo : Nat → List Str → List (CodeType × Str) × List LogEntry
  | 0, _ => ([], [])
  | _ + 1, [] => ([], [])
  | n + 1, line0 :: rest =>
    let tr := yieldStep (rstrip line0) rest
    let out_code := List.intercalate ['\n'] (rstrip line0 :: tr.1)
    ((classifySeg out_code, out_code) :: (yieldGo n tr.2.1).1,
      tr.2.2 ++ (yieldGo n tr.2.1).2)

/-- Model of `PreprocInput.yield_code_parts`. -/
def yield_code_parts (code : Str) : List (CodeType × Str) × List LogEntry :=
  let lines := splitlines code
  yieldGo lines.length lines

/-!
## Macro body expansion (`Macro.expand_args`)

The four `re.sub` patterns applied per parameter, and the final `##`
cleanup.  All patterns run with `re.ASCII + re.MULTILINE`.  Parameter names
produced by `#define` are nonempty words, so each pattern's character
classes are disjoint from the text that follows them and greedy matching is
exact.
-/

/-- The character class `[\s\\]` (whitespace or backslash). -/
def isSpaceBk (c : Char) : Bool := isPySpace c || c == '\\'

/-- Matcher for `[\s\\]*##[\s\\]*{arg_name}` (replacement: the raw argument
value). -/
def pasteLeftM (an av : Str) : Bool → Str → Option (Nat × Str) := fun _ s =>
  let w1 := s.takeWhile isSpaceBk
  let r1 := s.drop w1.length
  if ("##".toList).isPrefixOf r1 then
    let r2 := r1.drop 2
    let w2 := r2.takeWhile isSpaceBk
    if an.isPrefixOf (r2.drop w2.length) then
      some (w1.length + 2 + w2.length + an.length, av)
    else none
  else none

/-- Matcher for `{arg_name}[\s\\]*##[\s\\]*` (replacement: the raw argument
value). -/
def pasteRightM (an av : Str) : Bool → Str → Option (Nat × Str) := fun _ s =>
  if an.isPrefixOf s then
    let r1 := s.drop an.length
    let w1 := r1.takeWhile isSpaceBk
    let r2 := r1.drop w1.length
    if ("##".toList).isPrefixOf r2 then
      let w2 := (r2.drop 2).takeWhile isSpaceBk
      some (an.length + w1.length + 2 + w2.length, av)
    else none
  else none

/-- Common part of the stringification pattern
`(^|[^#])#\s*{arg_name}($|[^\w])` after the first group has been decided:
`pre` is the text captured by group 1 and `preLen` the input it consumed.
The replacement is `\g<1>"{arg_val}"\g<2>`; the trailing group is either
`$` (zero-width, tried first: end of input or before a newline under
`re.MULTILINE`) or a consumed non-word character. -/
def stringifyCore (an av pre : Str) (preLen : Nat) (r : Str) : Option (Nat × Str) :=
  match r with
  | '#' :: r1 =>
    let w := r1.takeWhile isPySpace
    let r2 := r1.drop w.length
    if an.isPrefixOf r2 then
      let r3 := r2.drop an.length
      let base := preLen + 1 + w.length + an.length
      if r3.isEmpty || r3.head? == some '\n' then
        some (base, pre ++ '"' :: (av ++ ['"']))
      else
        match r3.head? with
        | some c2 =>
          if !isWordChar c2 then some (base + 1, pre ++ '"' :: (av ++ ['"', c2])) else none
        | none => none
    else none
  | _ => none

/-- Matcher for `(^|[^#])#\s*{arg_name}($|[^\w])`: group 1 is `^` (only at
a line start, tried first) or a consumed non-`#` character. -/
def stringifyM (an av : Str) : Bool → Str → Option (Nat × Str) := fun atStart s =>
  match (if atStart then stringifyCore an av [] 0 s else none) with
  | some res => some res
  | none =>
    match s with
    | c :: t => if c != '#' then stringifyCore an av [c] 1 t else none
    | [] => none

/-- Common part of the standalone-parameter pattern
`(^|[^\w]){arg_name}($|[^\w])`; the replacement is
`\g<1>{fully_expanded}\g<2>`. -/
def standaloneCore (an ev pre : Str) (preLen : Nat) (r : Str) : Option (Nat × Str) :=
  if an.isPrefixOf r then
    let r3 := r.drop an.length
    let base := preLen + an.length
    if r3.isEmpty || r3.head? == some '\n' then
      some (base, pre ++ ev)
    else
      match r3.head? with
      | some c2 => if !isWordChar c2 then some (base + 1, pre ++ ev ++ [c2]) else none
      | none => none
  else none

/-- Matcher for `(^|[^\w]){arg_name}($|[^\w])`. -/
def standaloneM (an ev : Str) : Bool → Str → Option (Nat × Str) := fun atStart s =>
  match (if atStart then standaloneCore an ev [] 0 s else none) with
  | some res => some res
  | none =>
    match s with
    | c :: t => if !isWordChar c then standaloneCore an ev [c] 1 t else none
    | [] => none

/-- Matcher for the final cleanup `[\s\\]*##[\s\\]*` (replacement: empty). -/
def pasteAnyM : Bool → Str → Option (Nat × Str) := fun _ s =>
  let w1 := s.takeWhile isSpaceBk
  let r1 := s.drop w1.length
  if ("##".toList).isPrefixOf r1 then
    let w2 := (r1.drop 2).takeWhile isSpaceBk
    some (w1.length + 2 + w2.length, [])
  else none

/-- The comma-joined tail of the argument values bound to a variadic
parameter: the source builds `f"{acc}{v}, "` per value and strips the final
`", "`, which equals joining with `", "`. -/
def variadicVal (vals : List Str) (idx : Nat) : Str :=
  List.intercalate (", ".toList) (vals.drop idx)

/-- One iteration of the `for (arg_idx, arg_name) in enumerate(self.args)`
loop of `Macro.expand_args`: choose the effective name and values
(variadic parameters become `__VA_ARGS__` with the joined tails; a missing
argument value is the empty string), then apply the four substitutions in
source order. -/
def expandArgsStep (arg_vals fully : List Str) (body : Str) (p : Nat × Str) : Str :=
  let (an, av, fv) :=
    if p.2 = ("...".toList) then
      (("__VA_ARGS__".toList), variadicVal arg_vals p.1, variadicVal fully p.1)
    else
      (p.2, arg_vals.getD p.1 [], fully.getD p.1 [])
  let e1 := reSubM (pasteLeftM an av) body
  let e2 := reSubM (pasteRightM an av) e1
  let e3 := reSubM (stringifyM an av) e2
  reSubM (standaloneM an fv) e3

/-- Model of `Macro.expand_args(arg_vals, fully_exp_arg_vals)` (both lists given):
the per-parameter loop, the final `##` cleanup, and the closing `lstrip`. -/
def Macro.expand_args (m : Macro) (arg_vals fully : List Str) : Str :=
  lstrip (reSubM pasteAnyM ((m.args.enum).foldl (expandArgsStep arg_vals fully) m.body))

/-- Model of `Macro.expand_args()` (no argument lists, as called for object-like
macros): the parameter loop is skipped; only the final `##` cleanup and
`lstrip` run. -/
def Macro.expand_args_obj (m : Macro) : Str :=
  lstrip (reSubM pasteAnyM m.body)

/-!
## Macro reference detection and argument extraction (`PyCpp` privates)
-/

/-- Is `p` a line-start position of `code` (for `^` under `re.MULTILINE`)? -/
def lineStartAt (code : Str) (p : Nat) : Bool :=
  p == 0 || code.get? (p - 1) == some '\n'

/-- The tail of the `__get_macro_ident_pos` pattern after the identifier:
`\s*\(` when the macro has arguments, else `(?:$|[^\w])` — since `'\n'` is
a non-word character, the latter is "end of input or a non-word character". -/
def gmipEndOk (code : Str) (has_args : Bool) (q : Nat) : Bool :=
  if has_args then
    ((code.drop q).dropWhile isPySpace).head? == some '('
  else
    match (code.drop q).head? with
    | none => true
    | some c => !isWordChar c

/-- Model of `PyCpp.__get_macro_ident_pos`: `re.search` of
`(?:^|[^\w])(?P<id>{ident}){tail}` under `re.ASCII + re.MULTILINE`,
returning the start of the `id` group or `-1`.  The search tries each
position in order; at a position the zero-width `^` alternative is tried
before consuming a non-word character. -/
def gmipCand (code macro_ident : Str) (has_args : Bool) (p : Nat) : Option Nat :=
  if lineStartAt code p && macro_ident.isPrefixOf (code.drop p) &&
      gmipEndOk code has_args (p + macro_ident.length) then
    some p
  else
    match code.get? p with
    | some c =>
      if !isWordChar c && macro_ident.isPrefixOf (code.drop (p + 1)) &&
          gmipEndOk code has_args (p + 1 + macro_ident.length) then some (p + 1) else none
    | none => none

/-- See the doc comment above: the first successful match attempt, scanning
positions in order. -/
def get_macro_ident_pos (code : Str) (macro_ident : Str) (has_args : Bool) : Int :=
  match ((List.range (code.length + 1)).filterMap (gmipCand code macro_ident has_args)).head? with
  | some i => (i : Int)
  | none => -1

/-- The unbalancedness test of `__extract_macro_ref_args`: odd number of
double or single quotes, or unequal parenthesis counts. -/
def unbalancedArg (l : Str) : Bool :=
  l.count '"' % 2 == 1 || l.count squote % 2 == 1 || decide (l.count '(' ≠ l.count ')')

/-- Model of `PyCpp.__extract_macro_ref_args`: strip the argument text, delete
newlines, split on commas, then re-merge a split piece into the previous
argument while that argument is unbalanced.  The first argument is kept
raw; every newly started argument is stripped. -/
def extract_ref_args (args_code : Str) : List Str :=
  if args_code.isEmpty then []
  else
    let ac := replaceAll (pyStrip args_code) ['\n'] []
    match ac.splitOn ',' with
    | [] => []
    | a0 :: restA =>
      let (done, cur) := restA.foldl (fun (acc : List Str × Str) t =>
        if unbalancedArg acc.2 then (acc.1, acc.2 ++ (", ".toList) ++ t)
        else (acc.1 ++ [acc.2], pyStrip t)) (([] : List Str), a0)
      done ++ [cur]

/-- Model of `PyCpp.__insert_expanded_macro` (named `insert_expanded_code` here):
splice the expanded body into the code, re-indenting lines 2+ of a
multi-line body with the leading whitespace of the line holding the macro
reference and rstripping them. -/
def insert_expanded_code (code : Str) (ref_start ref_end : Nat) (exp_code : Str) : Str :=
  let out_code := code.take ref_start
  let exp2 :=
    if exp_code.contains '\n' then
      let insert_line := if out_code.contains '\n' then (splitlines out_code).getLastD [] else out_code
      let strip_line := lstrip insert_line
      let indent_symbols :=
        if !strip_line.isEmpty then insert_line.take (insert_line.length - strip_line.length)
        else insert_line
      List.intercalate ['\n'] (((splitlines exp_code).enum).map fun (p : Nat × Str) =>
        if 0 < p.1 then rstrip (indent_symbols ++ p.2) else p.2)
    else exp_code
  out_code ++ exp2 ++ code.drop ref_end

/-!
## The recursive macro expander (`PyCpp.expand_macros`)

`expand_macros` contains a `while` loop (re-scan for the next reference of
the current macro) whose body recursively re-enters `expand_macros`; the
loop is not a priori bounded.  The whole recursive nest is therefore
defunctionalised into the single function `expandRun` over a job type,
structurally recursive on an explicit fuel that bounds the nesting depth of
the source's call/loop structure; `none` means the budget was exhausted.
A call that returns `none` for *every* fuel corresponds to a
non-terminating execution of the source.
-/

/-- The `if len(arg_vals) < len(macro.args): log.err(...)` step of the
expander loop (kept as a named function so that proofs can treat the
intermediate state opaquely). -/
def maybeMissingArgsErr (st : EngineState) (numVals numParams : Nat) : EngineState :=
  if numVals < numParams then logErr st (Severity.CRITICAL, ErrKind.missing_args) else st

/-- The control positions of `expand_macros`:
* `top`: entry of `expand_macros(code, exp_depth)`;
* `over`: the `for (macro_id, macro) in self.macros.items()` loop with the
  remaining table entries;
* `loop`: the `while macro_start_pos >= 0 and ...` loop for one macro;
* `argsF`: the `for arg_val in arg_vals` loop building the fully expanded
  argument values. -/
inductive ExpJob where
  | top (code : Str) (depth : Nat)
  | over (todo : List Macro) (code : Str) (depth : Nat)
  | loop (m : Macro) (code : Str) (depth : Nat)
  | argsF (vals : List Str) (depth : Nat)

/-- Model of `PyCpp.expand_macros` and its inner loops.  `Sum.inl` carries the
expanded code of `top`/`over`/`loop` jobs, `Sum.inr` the list built by an
`argsF` job. -/
def expandRun : Nat → EngineState → ExpJob → Option (EngineState × (Str ⊕ List Str))
  | 0, _, _ => none
  | n + 1, st, .top code depth =>
    let exp_code := if depth == 0 then CodeFormatter.remove_line_escapes code false else code
    if 512 < depth then
      some (logErr st (Severity.SEVERE, ErrKind.depth_limit), Sum.inl exp_code)
    else
      expandRun n st (.over st.macros exp_code depth)
  | _ + 1, st, .over [] code _ => some (st, Sum.inl code)
  | n + 1, st, .over (m :: ms) code depth =>
    match expandRun n st (.loop m code depth) with
    | some (st1, Sum.inl c1) => expandRun n st1 (.over ms c1 depth)
    | _ => none
  | n + 1, st, .loop m code depth =>
    let pos := get_macro_ident_pos code m.identifier (!m.args.isEmpty)
    if pos < 0 || CodeFormatter.is_in_comment code pos || CodeFormatter.is_in_string code pos then
      some (st, Sum.inl code)
    else
      let posN := pos.toNat
      let macro_end := posN + m.identifier.length
      if m.args.isEmpty then
        match expandRun n st (.top (Macro.expand_args_obj m) (depth + 1)) with
        | some (st1, Sum.inl expc) =>
          expandRun n st1 (.loop m (insert_expanded_code code posN macro_end expc) depth)
        | _ => none
      else
        let se := CodeFormatter.get_enclosed_subst_pos code macro_end
        let macro_end2 := if 0 ≤ se.1 then se.2.toNat + 1 else macro_end
        let arg_vals :=
          if 0 ≤ se.1 then extract_ref_args (pySlice code (se.1.toNat + 1) se.2.toNat) else []
        let st1 := maybeMissingArgsErr st arg_vals.length m.args.length
        match expandRun n st1 (.argsF arg_vals depth) with
        | some (st2, Sum.inr fully) =>
          match expandRun n st2 (.top (Macro.expand_args m arg_vals fully) (depth + 1)) with
          | some (st3, Sum.inl expc) =>
            expandRun n st3 (.loop m (insert_expanded_code code posN macro_end2 expc) depth)
          | _ => none
        | _ => none
  | _ + 1, st, .argsF [] _ => some (st, Sum.inr [])
  | n + 1, st, .argsF (v :: vs) depth =>
    match expandRun n st (.top v (depth + 1)) with
    | some (st1, Sum.inl ev) =>
      match expandRun n st1 (.argsF vs depth) with
      | some (st2, Sum.inr evs) => some (st2, Sum.inr (ev :: evs))
      | _ => none
    | _ => none

/-- Model of `PyCpp.expand_macros(code, exp_depth)`. -/
def expand_macros (fuel : Nat) (st : EngineState) (code : Str) (exp_depth : Nat) :
    Option (EngineState × Str) :=
  match expandRun fuel st (.top code exp_depth) with
  | some (st1, Sum.inl c) => some (st1, c)
  | _ => none

/-!
## Expression evaluation (`__eval_defined`, `__preproc_eval_expr`,
`evaluate`, `is_true`)
-/

/-- Common part of the `__eval_defined` pattern
`(?:^|[ \t])defined[ \t]*\(?\s*(?P<ident>\w+)[ \t]*\)?` after the leading
group (of consumed length `preLen`); the replacement is `" 1"` when the
identifier is a macro-table key, else `" 0"`. -/
def definedCore (table : List Macro) (preLen : Nat) (r : Str) : Option (Nat × Str) :=
  if ("defined".toList).isPrefixOf r then
    let r1 := r.drop 7
    let w1 := r1.takeWhile isHTab
    let r2 := r1.drop w1.length
    let pr := match r2 with
      | '(' :: t => (1, t)
      | _ => (0, r2)
    let w2 := pr.2.takeWhile isPySpace
    let r4 := pr.2.drop w2.length
    let ident := r4.takeWhile isWordChar
    if ident.isEmpty then none
    else
      let r5 := r4.drop ident.length
      let w3 := r5.takeWhile isHTab
      let p2 := match r5.drop w3.length with
        | ')' :: _ => 1
        | _ => 0
      some (preLen + 7 + w1.length + pr.1 + w2.length + ident.length + w3.length + p2,
            if macroDefined table ident then (" 1".toList) else (" 0".toList))
  else none

/-- Matcher for the `__eval_defined` substitution (run with
`re.ASCII + re.MULTILINE`): the leading group is `^` (line start, tried
first) or one consumed `[ \t]` character. -/
def definedM (table : List Macro) : Bool → Str → Option (Nat × Str) := fun atStart s =>
  match (if atStart then definedCore table 0 s else none) with
  | some res => some res
  | none =>
    match s with
    | c :: t => if isHTab c then definedCore table 1 t else none
    | [] => none

/-- Model of `PyCpp.__eval_defined`. -/
def eval_defined (table : List Macro) (code : Str) : Str :=
  reSubM (definedM table) code

/-- Model of the Python `eval` call in `PyCpp.evaluate`, on the fragment the
claims exercise: an optionally whitespace-surrounded decimal integer
literal evaluates to its value; anything else is treated as an evaluation
failure (`none`), matching the source's `except (SyntaxError, NameError,
TypeError, ZeroDivisionError)` handler which turns failures into `False`.
(Leading-zero literals other than all-zero, e.g. `"01"`, are Python syntax
errors.) -/
def pyEvalInt (e : Str) : Option Int :=
  let s := pyStrip e
  if s.isEmpty then none
  else if !(s.all Char.isDigit) then none
  else if s.head? == some '0' && !(s.all (· == '0')) then none
  else some ((s.foldl (fun a c => a * 10 + (c.toNat - 48)) 0 : Nat) : Int)

/-- Model of `PyCpp.__preproc_eval_expr`: resolve `defined`, expand macros, join
line continuations, strip comments (a no-op: see `remove_comments`), strip
numeric suffixes, resolve `defined` again, remove empty lines. -/
def preproc_eval_expr (fuel : Nat) (st : EngineState) (code : Str) :
    Option (EngineState × Str) :=
  let c1 := eval_defined st.macros code
  match expand_macros fuel st c1 0 with
  | some (st1, c2) =>
    let c3 := CodeFormatter.remove_line_escapes c2 false
    let c4 := CodeFormatter.remove_comments c3 false false
    let c5 := CodeFormatter.remove_num_type_suffix c4
    let c6 := eval_defined st1.macros c5
    some (st1, CodeFormatter.remove_empty_lines c6)
  | none => none

/-- Model of `PyCpp.evaluate`: preprocess the expression, rewrite `&&`/`||`/`/`
(the source's `re.sub(r"!([^?==])", ...)` discards its result and is a
no-op), delete the keyword `import`, and evaluate. -/
def evaluate (fuel : Nat) (st : EngineState) (expr_code : Str) :
    Option (EngineState × Option Int) :=
  match preproc_eval_expr fuel st expr_code with
  | some (st1, e1) =>
    let e2 := replaceAll (replaceAll (replaceAll e1 ("&&".toList) (" and ".toList))
        ("||".toList) (" or ".toList)) (['/']) ("//".toList)
    let e3 := replaceAll e2 ("import".toList) []
    some (st1, pyEvalInt e3)
  | none => none

/-- Model of `PyCpp.is_true`: preprocess, evaluate (which preprocesses again), and
coerce to a boolean.  In the modelled `eval` fragment the result is never a
string, so the `isinstance(state, str)` guard never fires; `bool(state)`
on an integer is `state != 0` and an evaluation failure is `False`. -/
def is_true (fuel : Nat) (st : EngineState) (expr_code : Str) :
    Option (EngineState × Bool) :=
  match preproc_eval_expr fuel st expr_code with
  | some (st1, e1) =>
    match evaluate fuel st1 e1 with
    | some (st2, v) =>
      some (st2, match v with
        | some n => decide (n ≠ 0)
        | none => false)
    | none => none
  | none => none

/-!
## Directive matching and handlers

The `Directive` regex table of `PyCpp.__init__` and the `__process_*`
handlers.  Each `Directive.process` first joins line continuations
(`remove_line_escapes`) and matches its anchored pattern against the
joined text; the handler receives the captured groups and the *original*
segment text.
-/

/-- The shared prefix `^[ \t]*#[ \t]*{kw}` of every directive pattern:
returns the rest of the input after the keyword. -/
def dirRest (s kw : Str) : Option Str :=
  match s.dropWhile isHTab with
  | '#' :: r =>
    let r1 := r.dropWhile isHTab
    if kw.isPrefixOf r1 then some (r1.drop kw.length) else none
  | _ => none

/-- Model of `[ \t]+` (at least one) and the rest. -/
def wsPlusThen (r : Str) : Option Str :=
  let w := r.takeWhile isHTab
  if w.isEmpty then none else some (r.drop w.length)

/-- Model of `^[ \t]*#[ \t]*{kw}[ \t]+(?P<expr>.*)`: the expression group is the
rest of the (first) line — `.` does not match a newline. -/
def matchExprDirective (s kw : Str) : Option Str :=
  (dirRest s kw).bind fun r => (wsPlusThen r).map fun r2 => r2.takeWhile (· != '\n')

/-- Model of `^[ \t]*#[ \t]*{kw}(?:\s|$)` (for `#else` / `#endif`). -/
def matchBareDirective (s kw : Str) : Bool :=
  match dirRest s kw with
  | some r =>
    match r.head? with
    | some c => isPySpace c
    | none => true
  | none => false

/-- Model of `^[ \t]*#[ \t]*define[ \t]+(?P<ident>\w+)(?:\((?P<args>[^\)]*)\))?`:
the identifier, and the parameter-list group when a parenthesised list
immediately follows (no whitespace); with `(` but no closing `)` the
optional group matches empty instead. -/
def matchDefineDirective (s : Str) : Option (Str × Option Str) :=
  (dirRest s ("define".toList)).bind fun r =>
  (wsPlusThen r).bind fun r2 =>
  let ident := r2.takeWhile isWordChar
  if ident.isEmpty then none
  else
    some (ident,
      match r2.drop ident.length with
      | '(' :: r5 =>
        let a := r5.takeWhile (· != ')')
        if (r5.drop a.length).head? == some ')' then some a else none
      | _ => none)

/-- Model of `^[ \t]*#[ \t]*undef[ \t]+(?P<ident>\w+)`. -/
def matchUndefDirective (s : Str) : Option Str :=
  (dirRest s ("undef".toList)).bind fun r =>
  (wsPlusThen r).bind fun r2 =>
  let ident := r2.takeWhile isWordChar
  if ident.isEmpty then none else some ident

/-- Model of `^[ \t]*#[ \t]*include[ \t]+(?:\"|<)(?P<file>[^\">]+)(?:\"|>)`. -/
def matchIncludeDirective (s : Str) : Option Str :=
  (dirRest s ("include".toList)).bind fun r =>
  (wsPlusThen r).bind fun r2 =>
  match r2 with
  | c :: r3 =>
    if c == '"' || c == '<' then
      let f := r3.takeWhile fun d => d != '"' && d != '>'
      if f.isEmpty then none
      else
        match (r3.drop f.length).head? with
        | some c2 => if c2 == '"' || c2 == '>' then some f else none
        | none => none
    else none
  | [] => none

/-- Python's `textwrap.dedent`: whitespace-only lines are normalised to
empty, the margin is the longest common `[ \t]` prefix of all lines with
content (computed pairwise, exactly the source's
`startswith`/common-prefix cascade), and the margin is removed from every
line that starts with it. -/
def commonPrefix : Str → Str → Str
  | x :: xs, y :: ys => if x == y then x :: commonPrefix xs ys else []
  | _, _ => []

/-- See `commonPrefix`. -/
def dedent (text : Str) : Str :=
  let lines := text.splitOn '\n'
  let lines1 := lines.map fun l => if !l.isEmpty && l.all isHTab then ([] : Str) else l
  let indents := lines1.filterMap fun l =>
    if l.any (fun c => !isHTab c) then some (l.takeWhile isHTab) else none
  let margin := match indents with
    | [] => ([] : Str)
    | i0 :: irest => irest.foldl commonPrefix i0
  let lines2 :=
    if margin.isEmpty then lines1
    else lines1.map fun l => if margin.isPrefixOf l then l.drop margin.length else l
  List.intercalate ['\n'] lines2

/-- Model of `re.search(rf"{args_list[-1]}\s*\)", multiline_code)` of
`__process_define`: the end position of the first occurrence of the last
parameter name followed by optional whitespace and `)`.  The source
interpolates the parameter text into the regex; parameter names of
well-formed defines are plain words, so the literal reading used here is
exact for them. -/
def searchArgClose (s lastArg : Str) : Option Nat :=
  ((List.range (s.length + 1)).filterMap fun i =>
    if lastArg.isPrefixOf (s.drop i) then
      let r := s.drop (i + lastArg.length)
      let w := r.takeWhile isPySpace
      if (r.drop w.length).head? == some ')' then
        some (i + lastArg.length + w.length + 1)
      else none
    else none).head?

/-- Model of `re.search(rf"{ident}[ \t]*", multiline_code)`: the end position of the
first occurrence of the identifier plus trailing horizontal whitespace. -/
def searchIdentEnd (s ident : Str) : Option Nat :=
  ((List.range (s.length + 1)).filterMap fun i =>
    if ident.isPrefixOf (s.drop i) then
      some (i + ident.length + ((s.drop (i + ident.length)).takeWhile isHTab).length)
    else none).head?

/-- Model of `PyCpp.__process_define`: split and strip the parameter names, re-join
continuations keeping newlines, locate the body start (after the last
parameter's closing `)`, or after the identifier), then either dedent the
following lines (body starting with a newline) or trim the remainder of
the line; store the macro (replacing an existing entry).  When the body
start cannot be located, report a CRITICAL error. -/
def process_define (st : EngineState) (ident : Str) (argsOpt : Option Str) (code : Str) :
    EngineState :=
  let args_list := match argsOpt with
    | some a => (a.splitOn ',').map pyStrip
    | none => []
  let multiline := CodeFormatter.remove_line_escapes code true
  let re_end := if !args_list.isEmpty then searchArgClose multiline (args_list.getLastD [])
                else searchIdentEnd multiline ident
  match re_end with
  | some e =>
    let body := rstrip (multiline.drop e)
    let body2 := if body.head? == some '\n' then dedent (body.drop 1) else lstrip body
    { st with macros := macroUpsert st.macros ⟨ident, args_list, body2⟩ }
  | none => logErr st (Severity.CRITICAL, ErrKind.body_not_detected)

/-- Model of `PyCpp.__process_undef`. -/
def process_undef (st : EngineState) (ident : Str) : EngineState :=
  if macroDefined st.macros ident then { st with macros := macroRemove st.macros ident }
  else st

/-- Model of `PyCpp.__process_include`: `process_file` resolves the name against the
include directories and reads the file.  The model has no filesystem (no
claim exercises an include), so `read_file` takes its failure path: a
WARNING is logged and the empty contents make `process_file` skip the
nested `process_code` call entirely. -/
def process_include (st : EngineState) : EngineState :=
  logErr st (Severity.WARNING, ErrKind.file_not_found)

/-- Model of `PyCpp.__process_directives`: try the conditional directives first (in
table order `#if`, `#elif`, `#else`, `#endif`, `#ifdef`, `#ifndef`); when
none matched and the current branch is active, try the standard directives
(`#define`, `#undef`, `#include`).  Each `Directive.process` matches
against the continuation-joined text; handlers that need the raw segment
(`__process_define`) receive it.  `#if` evaluates its expression only in
an active branch, `#elif` only in a SEARCH/ACTIVE branch. -/
def process_directives (fuel : Nat) (st : EngineState) (code : Str) : Option EngineState :=
  let joined := CodeFormatter.remove_line_escapes code false
  match matchExprDirective joined ("if".toList) with
  | some expr =>
    (match (if ConditionManager.branch_active st.cond then is_true fuel st expr
            else some (st, false)) with
     | some (st1, b) => some { st1 with cond := ConditionManager.enter_if st1.cond b }
     | none => none)
  | none =>
  match matchExprDirective joined ("elif".toList) with
  | some expr =>
    (match (if ConditionManager.branch_search_active st.cond then is_true fuel st expr
            else some (st, false)) with
     | some (st1, b) => some { st1 with cond := ConditionManager.enter_elif st1.cond b }
     | none => none)
  | none =>
  if matchBareDirective joined ("else".toList) then
    some { st with cond := ConditionManager.enter_elif st.cond true }
  else if matchBareDirective joined ("endif".toList) then
    some { st with cond := (ConditionManager.exit_if st.cond).1,
                   errlog := st.errlog ++ (ConditionManager.exit_if st.cond).2.toList }
  else
  match matchExprDirective joined ("ifdef".toList) with
  | some expr =>
    some { st with cond := ConditionManager.enter_if st.cond (macroDefined st.macros expr) }
  | none =>
  match matchExprDirective joined ("ifndef".toList) with
  | some expr =>
    some { st with cond := ConditionManager.enter_if st.cond (!macroDefined st.macros expr) }
  | none =>
  if ConditionManager.branch_active st.cond then
    match matchDefineDirective joined with
    | some pr => some (process_define st pr.1 pr.2 code)
    | none =>
    match matchUndefDirective joined with
    | some ident => some (process_undef st ident)
    | none =>
    match matchIncludeDirective joined with
    | some _ => some (process_include st)
    | none => some st
  else some st

/-!
## `PyCpp.process_code`
-/

/-- The `for (code_type, code_part) in code_input.yield_code_parts(code)`
loop of `process_code`: a DIRECTIVE segment is dispatched; a CODE segment
is macro-expanded when the current branch is active; every segment (with
its possibly expanded text) is then added to the global output (when
`global_output`) and to the local output. -/
def processSegs (fuel : Nat) (global_output : Bool) :
    EngineState → OutState → List (CodeType × Str) → Option (EngineState × OutState)
  | st, loc, [] => some (st, loc)
  | st, loc, (ty, part) :: rest =>
    let step : Option (EngineState × Str) :=
      if ty == CodeType.DIRECTIVE then
        match process_directives fuel st part with
        | some st1 => some (st1, part)
        | none => none
      else if ConditionManager.branch_active st.cond && ty == CodeType.CODE then
        expand_macros fuel st part 0
      else some (st, part)
    match step with
    | some (st1, part1) =>
      let st2 := if global_output then
          { st1 with output := add_code_part st1.output part1 ty } else st1
      processSegs fuel global_output st2 (add_code_part loc part1 ty) rest
    | none => none

/-- Model of `PyCpp.process_code(code, global_output, full_local_output)`: record
the entry branch depth, expand tabs, chunk the input, process each
segment, and report a CRITICAL "Unterminated #if" error when the branch
depth at the end differs from the entry depth.  Returns the final engine
state, the local `PreprocOutput`, and the returned string
(`local.code_all` when `full_local_output` else `local.code`).  The
chunker's own log entries (an unterminated comment) are appended up
front — the source emits them while iterating; only the multiset of
entries matters to the claims. -/
def process_code (fuel : Nat) (st : EngineState) (code : Str)
    (global_output full_local_output : Bool) : Option (EngineState × OutState × Str) :=
  let orig_branch_depth := ConditionManager.branch_depth st.cond
  let code1 := CodeFormatter.replace_tabs code
  let se := yield_code_parts code1
  let st0 := { st with errlog := st.errlog ++ se.2 }
  match processSegs fuel global_output st0 initOut se.1 with
  | some (st1, loc) =>
    let st2 := if ConditionManager.branch_depth st1.cond ≠ orig_branch_depth then
        logErr st1 (Severity.CRITICAL, ErrKind.unterm_if) else st1
    some (st2, loc, if full_local_output then loc.code_all else loc.code)
  | none => none

/-!
## The older line-by-line `remove_line_escapes` (`cpreproc_utils.py`)

`cpreproc_utils.py` carries a second, line-based implementation of
`CodeFormatter.remove_line_escapes`.  It splits into lines, and for a line
whose rstripped form ends with a backslash drops the line's last character,
rstrips, and either appends the line plus a newline (`keep_newlines`) or
lstrips and appends the line plus a single space; other lines are appended
with a newline.  The final `out_code[:-1]` drops the last character.
-/

/-- Model of `CodeFormatter.remove_line_escapes` of `cpreproc_utils.py`. -/
def remove_line_escapes_utils (code : Str) (keep_newlines : Bool) : Str :=
  let out := (splitlines code).foldl (fun out line =>
    if ['\\'].isSuffixOf (rstrip line) then
      let line2 := rstrip (line.take (line.length - 1))
      if keep_newlines then out ++ line2 ++ ['\n']
      else out ++ lstrip line2 ++ [' ']
    else out ++ line ++ ['\n']) []
  out.take (out.length - 1)

/-!
## Frame predicate and concrete claim inputs
-/

/-- Everything of the engine state except the error log is unchanged, and
the error log grew by entries none of which is the CRITICAL
unterminated-`#if` report (which only the end of `process_code` emits). -/
def frameKeep (st st' : EngineState) : Prop :=
  st'.macros = st.macros ∧ st'.cond = st.cond ∧
  st'.incl_dir_paths = st.incl_dir_paths ∧ st'.output = st.output ∧
  ∃ ext, st'.errlog = st.errlog ++ ext ∧
    (Severity.CRITICAL, ErrKind.unterm_if) ∉ ext

/-- Only the error log possibly changed, by entries other than the
unterminated-`#if` report. -/
def errExtOk (st st' : EngineState) : Prop :=
  ∃ ext, st'.errlog = st.errlog ++ ext ∧
    (Severity.CRITICAL, ErrKind.unterm_if) ∉ ext

/-- The five-line conditional input of claim C1. -/
def c1Input : Str := "#if 0\nX\n#else\nY\n#endif\n".toList

/-- The token-pasting input of claim C2. -/
def c2Input : Str := "#define CAT(a,b) a##b\nCAT(foo,bar)\n".toList

/-- The engine state after `#define X X`: the macro table holds the
self-referential object-like macro `X` with body `X`. -/
def selfRefState : EngineState :=
  { initEngine with macros := [⟨['X'], [], ['X']⟩] }

/-- The function-like macro input of claim C7. -/
def c7Input : Str := "#define SUM(A,B) A + B\nSUM(11, 22)\n".toList

/-- The value of `process_code 40 initEngine "#if 1\n" true false` — an
unterminated `#if`, used as the concrete instance of claim C8's witness. -/
def c8Result : EngineState × OutState × Str :=
  ({ macros := [],
     cond := ⟨.ACTIVE, [.ACTIVE]⟩,
     incl_dir_paths := [[]],
     output := ⟨[], [], false, [], "#if 1\n".toList⟩,
     errlog := [(Severity.CRITICAL, ErrKind.unterm_if)] },
   ⟨[], [], false, [], "#if 1\n".toList⟩,
   [])

/-- Specification-side predicate for claim C4 (from the spec's
`find_balanced` wording): position `i` holds an opening delimiter at or
after the start position. -/
def openerSpec (code : Str) (start i : Nat) : Prop :=
  start ≤ i ∧ code.get? i = some '('

/-- Specification-side predicate for claim C4: position `p` (after the
opening delimiter at `sn`) holds a closing delimiter making the enclosed
slice `code[sn : p + 1]` have equal `(` and `)` counts. -/
def closerSpec (code : Str) (sn p : Nat) : Prop :=
  sn + 1 ≤ p ∧ code.get? p = some ')' ∧
    (pySlice code sn (p + 1)).count '(' = (pySlice code sn (p + 1)).count ')'

/-- Replaying a list of `(text, kind)` segments into a fresh
`PreprocOutput` — the states of the output assembler reachable from a
sequence of `add_code_part` calls (claim C6). -/
def runOut (segs : List (Str × CodeType)) : OutState :=
  segs.foldl (fun o p => add_code_part o p.1 p.2) initOut

/-!
# Theorems

The remainder of the file settles the claims.  Shared helper lemmas come
first, then one theorem per claim (plus counterexamples and witnesses where
a claim calls for them).
-/

/-- C1: on the five-line input `#if 0 / X / #else / Y / #endif`,
`process_code` *does not* suppress the CODE segment `X` of the inactive
branch: the trimmed local output is `"X\nY\n"`, which contains the line
`X`, while the claim requires `X` to be absent.  The verbatim `code_all`
does contain all input lines, as claimed. -/
theorem c1_inactive_branch_not_suppressed :
    (process_code 40 initEngine c1Input true false).map
      (fun r => (r.2.2, r.2.1.code_all)) = some ("X\nY\n".toList, c1Input) ∧
    ['X'] ∈ splitlines ("X\nY\n".toList) := by decide

/-- C2: after `#define CAT(a,b) a##b`, the reference `CAT(foo,bar)`
expands to `foob`, not `foobar`: the substitution for parameter `a`
consumes the `##` operator together with `a`, leaving `b` glued to the
inserted text where it is no longer a standalone word, so it is never
replaced by `bar`. -/
theorem c2_token_pasting_drops_second_arg :
    (process_code 60 initEngine c2Input true false).map (fun r => r.2.2) =
      some ("foob\n".toList) ∧
    (expand_macros 50
        { initEngine with macros := [⟨"CAT".toList, [['a'], ['b']], "a##b".toList⟩] }
        ("CAT(foo,bar)".toList) 0).map (fun r => r.2) = some ("foob".toList) := by decide

/-- C5: `remove_comments` with both flags false (the plain "remove" mode
used by `__preproc_eval_expr`) returns its input unchanged, so a comment
reaches the evaluator: `is_true "1 /* c */"` is `false` (the `/` rewriting
turns the retained comment into a syntax error) while `is_true "1"` is
`true`. -/
theorem c5_comments_reach_evaluator :
    CodeFormatter.remove_comments ("1 /* c */".toList) false false = "1 /* c */".toList ∧
    is_true 50 initEngine ("1 /* c */".toList) = some (initEngine, false) ∧
    is_true 50 initEngine ['1'] = some (initEngine, true) := by decide

/-- C7: processing `#define SUM(A,B) A + B` followed by `SUM(11, 22)`
returns the trimmed local output `"11 + 22\n"`. -/
theorem c7_function_like_macro_expansion :
    (process_code 60 initEngine c7Input true false).map (fun r => r.2.2) =
      some ("11 + 22\n".toList) := by decide

/-- C4, counterexample: on `x + f(a)` searched from 0 the function returns
`(5, 7)` — the `(` at index 5 is preceded by the non-whitespace prefix
`x + f`, yet the result is not `(-1, -1)` as the claim requires, because
`re.match` with the pattern `\s*` succeeds (matching the empty string) at
every anchor position. -/
theorem c4_counterexample_prefix_not_checked :
    CodeFormatter.get_enclosed_subst_pos ("x + f(a)".toList) 0 = (5, 7) ∧
    CodeFormatter.get_enclosed_subst_pos ("x + f(a)".toList) 0 ≠ (-1, -1) := by decide

/-- C9, counterexample: on the input `"\n"` (with `keep_newlines = false`)
the line-based implementation of `cpreproc_utils.py` returns `""` (its
final `[:-1]` drops the rejoined newline) while the regex implementation
of `src/pycpp.py` returns `"\n"` unchanged. -/
theorem c9_counterexample_trailing_newline :
    remove_line_escapes_utils ("\n".toList) false = [] ∧
    CodeFormatter.remove_line_escapes ("\n".toList) false = "\n".toList ∧
    remove_line_escapes_utils ("\n".toList) false ≠
      CodeFormatter.remove_line_escapes ("\n".toList) false := by decide

/-- Model of `add_code_part` preserves the assembler invariant "no pending space
before any CODE was emitted". -/
theorem addCodePart_inv (o : OutState) (part : Str) (ty : CodeType)
    (h : o.non_empty = false → o.last_space = []) :
    (add_code_part o part ty).non_empty = false →
      (add_code_part o part ty).last_space = [] := by
  cases ty <;> cases hn : o.non_empty <;>
    simp_all [add_code_part]

/-- States reachable by feeding segments into a fresh `PreprocOutput`
satisfy the invariant. -/
theorem runOut_inv (segs : List (Str × CodeType)) :
    (runOut segs).non_empty = false → (runOut segs).last_space = [] := by
  suffices h : ∀ (o : OutState), (o.non_empty = false → o.last_space = []) →
      ∀ (segs : List (Str × CodeType)),
        ((segs.foldl (fun o p => add_code_part o p.1 p.2) o).non_empty = false →
        (segs.foldl (fun o p => add_code_part o p.1 p.2) o).last_space = []) by
    exact h initOut (by intro; rfl) segs
  intro o ho segs
  induction segs generalizing o with
  | nil => exact ho
  | cons p rest ih => exact ih _ (addCodePart_inv o p.1 p.2 ho)

/-- C6: the full `add_code_part` contract, at every reachable assembler
state `runOut segs` and for every segment text: `code_all` grows by the
newline-terminated text for every kind; a SPACE is held as the (single)
pending `last_space` only when a CODE segment was already emitted — before
that the pending space stays empty, i.e. the SPACE is dropped — and clears
`last_comment`; a COMMENT accumulates onto `last_comment`; a DIRECTIVE
clears both pendings; a CODE flushes pending space, then pending comment,
then its own text, clears both pendings and marks the stream non-empty. -/
theorem c6_output_assembler_contract (segs : List (Str × CodeType)) (part : Str) :
    (∀ ty, (add_code_part (runOut segs) part ty).code_all =
        (runOut segs).code_all ++ part ++ ['\n']) ∧
    ((add_code_part (runOut segs) part .SPACE).last_space =
        (if (runOut segs).non_empty then part ++ ['\n'] else []) ∧
     (add_code_part (runOut segs) part .SPACE).last_comment = [] ∧
     (add_code_part (runOut segs) part .SPACE).code = (runOut segs).code ∧
     (add_code_part (runOut segs) part .SPACE).non_empty = (runOut segs).non_empty) ∧
    ((add_code_part (runOut segs) part .COMMENT).last_comment =
        (runOut segs).last_comment ++ part ++ ['\n'] ∧
     (add_code_part (runOut segs) part .COMMENT).last_space = (runOut segs).last_space ∧
     (add_code_part (runOut segs) part .COMMENT).code = (runOut segs).code ∧
     (add_code_part (runOut segs) part .COMMENT).non_empty = (runOut segs).non_empty) ∧
    ((add_code_part (runOut segs) part .DIRECTIVE).last_space = [] ∧
     (add_code_part (runOut segs) part .DIRECTIVE).last_comment = [] ∧
     (add_code_part (runOut segs) part .DIRECTIVE).code = (runOut segs).code ∧
     (add_code_part (runOut segs) part .DIRECTIVE).non_empty = (runOut segs).non_empty) ∧
    ((add_code_part (runOut segs) part .CODE).code =
        (runOut segs).code ++ (runOut segs).last_space ++ (runOut segs).last_comment ++
          part ++ ['\n'] ∧
     (add_code_part (runOut segs) part .CODE).last_space = [] ∧
     (add_code_part (runOut segs) part .CODE).last_comment = [] ∧
     (add_code_part (runOut segs) part .CODE).non_empty = true) := by
  refine ⟨fun ty => ?_, ⟨?_, rfl, rfl, rfl⟩, ⟨rfl, rfl, rfl, rfl⟩, ⟨rfl, rfl, rfl, rfl⟩,
    ⟨by simp [add_code_part], rfl, rfl, rfl⟩⟩
  · cases ty <;> rfl
  · cases hn : (runOut segs).non_empty with
    | false => simp [add_code_part, hn, runOut_inv segs hn]
    | true => simp [add_code_part, hn]

theorem frameKeep_refl (st : EngineState) : frameKeep st st :=
  ⟨rfl, rfl, rfl, rfl, [], by simp, by simp⟩

theorem frameKeep_trans {a b c : EngineState} (h1 : frameKeep a b) (h2 : frameKeep b c) :
    frameKeep a c := by
  obtain ⟨m1, c1, i1, o1, e1, he1, hn1⟩ := h1
  obtain ⟨m2, c2, i2, o2, e2, he2, hn2⟩ := h2
  exact ⟨m2.trans m1, c2.trans c1, i2.trans i1, o2.trans o1, e1 ++ e2,
    by rw [he2, he1, List.append_assoc], by simp [hn1, hn2]⟩

theorem frameKeep_logErr (st : EngineState) (e : LogEntry)
    (h : e ≠ (Severity.CRITICAL, ErrKind.unterm_if)) : frameKeep st (logErr st e) :=
  ⟨rfl, rfl, rfl, rfl, [e], rfl, by simpa using fun hh => h hh.symm⟩

theorem maybeMissingArgsErr_frame (st : EngineState) (a b : Nat) :
    frameKeep st (maybeMissingArgsErr st a b) := by
  unfold maybeMissingArgsErr
  split
  · exact frameKeep_logErr _ _ (by simp)
  · exact frameKeep_refl st

/-- The expander only reads the engine state (its macro table); every field
except the error log is returned unchanged, and the error log only grows by
SEVERE depth-limit or CRITICAL missing-argument entries, never the
unterminated-`#if` entry. -/
theorem expandRun_frame :
    ∀ (fuel : Nat) (st : EngineState) (job : ExpJob) (r : EngineState × (Str ⊕ List Str)),
      expandRun fuel st job = some r → frameKeep st r.1 := by
  intro fuel
  induction fuel with
  | zero => intro st job r h; simp [expandRun] at h
  | succ n ih =>
    intro st job r h
    match job with
    | .top code depth =>
      simp only [expandRun] at h
      split at h
      · cases h
        exact frameKeep_logErr _ _ (by simp)
      · exact ih st _ r h
    | .over [] code depth =>
      simp only [expandRun] at h
      cases h
      exact frameKeep_refl st
    | .over (m :: ms) code depth =>
      simp only [expandRun] at h
      split at h
      · next st1 c1 heq => exact frameKeep_trans (ih st _ _ heq) (ih st1 _ r h)
      · cases h
    | .loop m code depth =>
      simp only [expandRun] at h
      split at h
      · cases h
        exact frameKeep_refl st
      · split at h
        · -- object-like macro
          split at h
          · next st1 expc heq =>
            exact frameKeep_trans (ih st _ _ heq) (ih st1 _ r h)
          · cases h
        · -- function-like macro
          split at h
          · next st2 fully heq1 =>
            split at h
            · next st3 expc heq2 =>
              have h1 := ih _ _ _ heq1
              have h2 := ih _ _ _ heq2
              have h3 := ih _ _ _ h
              exact frameKeep_trans (frameKeep_trans
                (frameKeep_trans (maybeMissingArgsErr_frame st _ _) h1) h2) h3
            · cases h
          · cases h
    | .argsF [] depth =>
      simp only [expandRun] at h
      cases h
      exact frameKeep_refl st
    | .argsF (v :: vs) depth =>
      simp only [expandRun] at h
      split at h
      · next st1 ev heq =>
        split at h
        · next st2 evs heq2 =>
          cases h
          have h1 := ih _ _ _ heq
          have h2 := ih _ _ _ heq2
          exact frameKeep_trans h1 h2
        · cases h
      · cases h

theorem expand_macros_frame (fuel : Nat) (st : EngineState) (code : Str) (depth : Nat)
    (r : EngineState × Str) (h : expand_macros fuel st code depth = some r) :
    frameKeep st r.1 := by
  unfold expand_macros at h
  split at h
  · next heq =>
    cases h
    exact expandRun_frame _ _ _ _ heq
  · cases h

theorem preproc_eval_expr_frame (fuel : Nat) (st : EngineState) (code : Str)
    (r : EngineState × Str) (h : preproc_eval_expr fuel st code = some r) :
    frameKeep st r.1 := by
  unfold preproc_eval_expr at h
  dsimp only at h
  split at h
  · next heq =>
    have h1 := expand_macros_frame _ _ _ _ _ heq
    cases h
    exact h1
  · cases h

theorem evaluate_frame (fuel : Nat) (st : EngineState) (code : Str)
    (r : EngineState × Option Int) (h : evaluate fuel st code = some r) :
    frameKeep st r.1 := by
  unfold evaluate at h
  split at h
  · next heq =>
    cases h
    exact preproc_eval_expr_frame _ _ _ _ heq
  · cases h

theorem is_true_frame (fuel : Nat) (st : EngineState) (code : Str)
    (r : EngineState × Bool) (h : is_true fuel st code = some r) :
    frameKeep st r.1 := by
  unfold is_true at h
  split at h
  · next st1 e1 heq =>
    split at h
    · next heq2 =>
      cases h
      have h1 := preproc_eval_expr_frame _ _ _ _ heq
      have h2 := evaluate_frame _ _ _ _ heq2
      exact frameKeep_trans h1 h2
    · cases h
  · cases h

theorem errExtOk_refl (st : EngineState) : errExtOk st st :=
  ⟨[], by simp, by simp⟩

theorem errExtOk_trans {a b c : EngineState} (h1 : errExtOk a b) (h2 : errExtOk b c) :
    errExtOk a c := by
  obtain ⟨e1, he1, hn1⟩ := h1
  obtain ⟨e2, he2, hn2⟩ := h2
  exact ⟨e1 ++ e2, by rw [he2, he1, List.append_assoc], by simp [hn1, hn2]⟩

theorem errExtOk_of_frameKeep {a b : EngineState} (h : frameKeep a b) : errExtOk a b :=
  ⟨h.2.2.2.2.choose, h.2.2.2.2.choose_spec.1, h.2.2.2.2.choose_spec.2⟩

/-- Changing fields other than the error log preserves `errExtOk`. -/
theorem errExtOk_same_errlog {a b : EngineState} (h : errExtOk a b)
    (c : EngineState) (hc : c.errlog = b.errlog) : errExtOk a c := by
  obtain ⟨e1, he1, hn1⟩ := h
  exact ⟨e1, by rw [hc, he1], hn1⟩

/-- Model of `exit_if` never reports the unterminated-`#if` error. -/
theorem exit_if_err (cm : CondMngr) :
    (Severity.CRITICAL, ErrKind.unterm_if) ∉ (ConditionManager.exit_if cm).2.toList := by
  cases hs : cm.branch_state_stack <;> simp [ConditionManager.exit_if, hs]

theorem process_define_errlog (st : EngineState) (ident : Str) (argsOpt : Option Str)
    (code : Str) :
    (process_define st ident argsOpt code).errlog = st.errlog ∨
    (process_define st ident argsOpt code).errlog =
      st.errlog ++ [(Severity.CRITICAL, ErrKind.body_not_detected)] := by
  unfold process_define
  dsimp only
  split
  · left; rfl
  · right; rfl

theorem process_define_errExt (st : EngineState) (ident : Str) (argsOpt : Option Str)
    (code : Str) : errExtOk st (process_define st ident argsOpt code) := by
  rcases process_define_errlog st ident argsOpt code with h | h
  · exact ⟨[], by simp [h], by simp⟩
  · exact ⟨[(Severity.CRITICAL, ErrKind.body_not_detected)], h, by simp⟩

theorem process_directives_errExt (fuel : Nat) (st : EngineState) (code : Str)
    (st' : EngineState) (h : process_directives fuel st code = some st') :
    errExtOk st st' := by
  unfold process_directives at h
  dsimp only at h
  split at h
  · -- #if
    split at h
    · next heq =>
      cases h
      split at heq
      · exact errExtOk_same_errlog (errExtOk_of_frameKeep (is_true_frame _ _ _ _ heq)) _ rfl
      · cases heq
        exact errExtOk_refl st
    · cases h
  · split at h
    · -- #elif
      split at h
      · next heq =>
        cases h
        split at heq
        · exact errExtOk_same_errlog (errExtOk_of_frameKeep (is_true_frame _ _ _ _ heq)) _ rfl
        · cases heq
          exact errExtOk_refl st
      · cases h
    · split at h
      · -- #else
        cases h
        exact ⟨[], by simp, by simp⟩
      · split at h
        · -- #endif
          cases h
          exact ⟨(ConditionManager.exit_if st.cond).2.toList, rfl, exit_if_err st.cond⟩
        · split at h
          · -- #ifdef
            cases h
            exact ⟨[], by simp, by simp⟩
          · split at h
            · -- #ifndef
              cases h
              exact ⟨[], by simp, by simp⟩
            · split at h
              · -- active branch: standard directives
                split at h
                · -- #define
                  cases h
                  exact process_define_errExt _ _ _ _
                · split at h
                  · -- #undef
                    cases h
                    unfold process_undef
                    split
                    · exact ⟨[], by simp, by simp⟩
                    · exact errExtOk_refl st
                  · split at h
                    · -- #include
                      cases h
                      exact ⟨[(Severity.WARNING, ErrKind.file_not_found)], rfl, by simp⟩
                    · cases h
                      exact errExtOk_refl st
              · cases h
                exact errExtOk_refl st

theorem processSegs_errExt (fuel : Nat) (g : Bool) :
    ∀ (segs : List (CodeType × Str)) (st : EngineState) (loc : OutState)
      (r : EngineState × OutState),
      processSegs fuel g st loc segs = some r → errExtOk st r.1 := by
  intro segs
  induction segs with
  | nil =>
    intro st loc r h
    simp only [processSegs] at h
    cases h
    exact errExtOk_refl st
  | cons p rest ih =>
    intro st loc r h
    simp only [processSegs] at h
    split at h
    · next st1 part1 heq =>
      have h1 : errExtOk st st1 := by
        split at heq
        · split at heq
          · next heq2 =>
            cases heq
            exact process_directives_errExt _ _ _ _ heq2
          · cases heq
        · split at heq
          · exact errExtOk_of_frameKeep (expand_macros_frame _ _ _ _ _ heq)
          · cases heq
            exact errExtOk_refl st
      have h2 : errExtOk st (if g then
          { st1 with output := add_code_part st1.output part1 p.1 } else st1) := by
        split
        · exact errExtOk_same_errlog h1 _ rfl
        · exact h1
      exact errExtOk_trans h2 (ih _ _ _ h)
    · cases h

/-- The per-line step of the chunker only ever reports an unterminated
comment. -/
theorem yieldStep_err (in_line : Str) (rest : List Str) :
    (Severity.CRITICAL, ErrKind.unterm_if) ∉ (yieldStep in_line rest).2.2 := by
  unfold yieldStep
  repeat' split
  all_goals simp

/-- The chunker only ever reports unterminated comments, never the
unterminated-`#if` entry. -/
theorem yieldGo_err (n : Nat) :
    ∀ lines : List Str, (Severity.CRITICAL, ErrKind.unterm_if) ∉ (yieldGo n lines).2 := by
  induction n with
  | zero => intro lines; simp [yieldGo]
  | succ n ih =>
    intro lines
    cases lines with
    | nil => simp [yieldGo]
    | cons line0 rest =>
      simp only [yieldGo, List.mem_append]
      rintro (h1 | h2)
      · exact yieldStep_err _ _ h1
      · exact ih _ h2

theorem drop_pre2 {A : Type} (pre a b : List A) :
    ((pre ++ a) ++ b).drop pre.length = a ++ b := by
  rw [List.append_assoc, List.drop_left]

theorem drop_pre3 {A : Type} (pre a b c : List A) :
    (((pre ++ a) ++ b) ++ c).drop pre.length = a ++ (b ++ c) := by
  rw [List.append_assoc, List.append_assoc, List.drop_left]

/-- C8: (1) `exit_if` called with an empty branch-state stack reports the
CRITICAL unexpected-`#endif` error and leaves the branch state and the
stack unchanged; (2) a `process_code` call reports the CRITICAL
unterminated-`#if` error — an entry emitted only by its final
depth check — if and only if the condition-stack depth at the end of input
differs from the depth at entry. -/
theorem c8_exit_if_and_depth_balance :
    (∀ cm : CondMngr, cm.branch_state_stack = [] →
      (ConditionManager.exit_if cm).1 = cm ∧
      (ConditionManager.exit_if cm).2 =
        some (Severity.CRITICAL, ErrKind.unexpected_endif)) ∧
    (∀ (fuel : Nat) (st : EngineState) (code : Str) (g f : Bool)
        (r : EngineState × OutState × Str),
      process_code fuel st code g f = some r →
      ((Severity.CRITICAL, ErrKind.unterm_if) ∈ r.1.errlog.drop st.errlog.length ↔
        ConditionManager.branch_depth r.1.cond ≠ ConditionManager.branch_depth st.cond)) := by
  constructor
  · intro cm hcm
    obtain ⟨bs, stack⟩ := cm
    simp only at hcm
    subst hcm
    exact ⟨rfl, rfl⟩
  · intro fuel st code g f r h
    unfold process_code at h
    dsimp only at h
    split at h
    · next st1 loc heq =>
      obtain ⟨ext, hext, hnext⟩ := processSegs_errExt _ _ _ _ _ _ heq
      have hchunk := yieldGo_err (splitlines (CodeFormatter.replace_tabs code)).length
        (splitlines (CodeFormatter.replace_tabs code))
      cases h
      split
      · next hc =>
        have e1 : (logErr st1 (Severity.CRITICAL, ErrKind.unterm_if)).errlog
            = st1.errlog ++ [(Severity.CRITICAL, ErrKind.unterm_if)] := rfl
        have e2 : (logErr st1 (Severity.CRITICAL, ErrKind.unterm_if)).cond = st1.cond := rfl
        rw [e1, e2, hext, drop_pre3]
        simp only [List.mem_append, List.mem_singleton]
        exact ⟨fun _ => hc, fun _ => Or.inr (Or.inr trivial)⟩
      · next hc =>
        rw [hext, drop_pre2]
        simp only [List.mem_append]
        constructor
        · rintro (hm | hm)
          · exact absurd hm hchunk
          · exact absurd hm hnext
        · intro hd
          exact absurd hd hc
    · cases h

/-- C8 witness: the empty-stack `exit_if` contract at the initial condition
manager, and the balance property at the concrete unterminated input
`#if 1` (where the depth grew from 0 to 1 and the error is reported). -/
theorem c8_witness :
    ((ConditionManager.exit_if ⟨.ACTIVE, []⟩).1 = (⟨.ACTIVE, []⟩ : CondMngr) ∧
     (ConditionManager.exit_if ⟨.ACTIVE, []⟩).2 =
       some (Severity.CRITICAL, ErrKind.unexpected_endif)) ∧
    ((Severity.CRITICAL, ErrKind.unterm_if) ∈
        c8Result.1.errlog.drop initEngine.errlog.length ↔
      ConditionManager.branch_depth c8Result.1.cond ≠
        ConditionManager.branch_depth initEngine.cond) :=
  ⟨c8_exit_if_and_depth_balance.1 ⟨.ACTIVE, []⟩ rfl,
   c8_exit_if_and_depth_balance.2 40 initEngine ("#if 1\n".toList) true false c8Result
     (by decide)⟩

/-- C10: `expand_macros` is a pure query on the engine: whenever it
returns, the macro table, the condition-manager state and stack, the
include-directory list and the output buffers (the whole `PreprocOutput`,
in particular `code` and `code_all`) are exactly as before the call; only
the error log may have grown. -/
theorem c10_expand_macros_is_pure_query :
    ∀ (fuel : Nat) (st : EngineState) (code : Str) (depth : Nat)
      (r : EngineState × Str),
      expand_macros fuel st code depth = some r →
      r.1.macros = st.macros ∧ r.1.cond = st.cond ∧
      r.1.incl_dir_paths = st.incl_dir_paths ∧ r.1.output = st.output := by
  intro fuel st code depth r h
  obtain ⟨hm, hc, hi, ho, _⟩ := expand_macros_frame fuel st code depth r h
  exact ⟨hm, hc, hi, ho⟩

/-- C10 witness: expanding `Y` against the table holding the macro `X`
leaves the whole engine state unchanged. -/
theorem c10_witness :
    (selfRefState, (['Y'] : Str)).1.macros = selfRefState.macros ∧
    (selfRefState, (['Y'] : Str)).1.cond = selfRefState.cond ∧
    (selfRefState, (['Y'] : Str)).1.incl_dir_paths = selfRefState.incl_dir_paths ∧
    (selfRefState, (['Y'] : Str)).1.output = selfRefState.output :=
  c10_expand_macros_is_pure_query 5 selfRefState ['Y'] 0 (selfRefState, ['Y']) (by decide)

/-- With the macro table `{X ↦ X}`, every entry point of the expander on
the text `X` at any depth `d ≤ 512` exhausts any fuel: the reference is
re-found at position 0 after each (identity) rewrite, so the source's
`while` loop never exits.  Proved by induction on the fuel. -/
theorem expandX_none :
    ∀ (fuel : Nat) (st : EngineState), st.macros = [⟨['X'], [], ['X']⟩] →
      ∀ d : Nat, d ≤ 512 →
        expandRun fuel st (.top ['X'] d) = none ∧
        expandRun fuel st (.over [⟨['X'], [], ['X']⟩] ['X'] d) = none ∧
        expandRun fuel st (.loop ⟨['X'], [], ['X']⟩ ['X'] d) = none := by
  intro fuel
  induction fuel with
  | zero =>
    intro st hst d hd
    exact ⟨rfl, rfl, rfl⟩
  | succ n ih =>
    intro st hst d hd
    refine ⟨?_, ?_, ?_⟩
    · -- entry: `exp_depth ≤ 512`, so the macro-table loop runs
      simp only [expandRun]
      have hexp : (if (d == 0) = true then CodeFormatter.remove_line_escapes ['X'] false
          else ['X']) = ['X'] := by
        split
        · decide
        · rfl
      rw [hexp, if_neg (by omega : ¬ 512 < d), hst]
      exact (ih st hst d hd).2.1
    · -- the table loop enters the `while` loop for `X`
      simp only [expandRun]
      rw [(ih st hst d hd).2.2]
    · -- one iteration of the `while` loop
      have hstep : expandRun (n + 1) st (.loop ⟨['X'], [], ['X']⟩ ['X'] d) =
          (match expandRun n st (.top ['X'] (d + 1)) with
           | some (st1, Sum.inl expc) =>
               expandRun n st1
                 (.loop ⟨['X'], [], ['X']⟩ (insert_expanded_code ['X'] 0 1 expc) d)
           | _ => none) := rfl
      rw [hstep]
      by_cases hd512 : d = 512
      · subst hd512
        cases n with
        | zero => rfl
        | succ m =>
          have hsub : expandRun (m + 1) st (.top ['X'] (512 + 1)) =
              some (logErr st (Severity.SEVERE, ErrKind.depth_limit), Sum.inl ['X']) := rfl
          rw [hsub]
          exact (ih (logErr st (Severity.SEVERE, ErrKind.depth_limit))
            (by simpa [logErr] using hst) 512 le_rfl).2.2
      · rw [(ih st hst (d + 1) (by omega)).1]

/-- C3: the source's `#define X X` yields the macro table `{X ↦ X}`, and
on that table `expand_macros "X"` returns no result under *any* step
budget: the execution diverges (the depth guard fires at depth 513 and
returns `X` unchanged, whereupon the caller's `while` loop finds the same
reference again, forever).  The claimed behaviour — termination with
output `X` and a single SEVERE report — does not occur. -/
theorem c3_self_referential_macro_diverges :
    (process_code 40 initEngine ("#define X X\n".toList) true false).map
        (fun r => r.1.macros) = some [⟨['X'], [], ['X']⟩] ∧
    ∀ fuel : Nat, expand_macros fuel selfRefState ['X'] 0 = none := by
  refine ⟨by decide, fun fuel => ?_⟩
  unfold expand_macros
  rw [(expandX_none fuel selfRefState rfl 0 (by omega)).1]

theorem head_opt_mem {A : Type} {l : List A} {a : A} (h : l.head? = some a) : a ∈ l := by
  cases l with
  | nil => cases h
  | cons x xs =>
    simp only [List.head?_cons, Option.some.injEq] at h
    subst h
    exact List.mem_cons_self _ _

/-- A successful single-character `matchesAt` is an indexed lookup. -/
theorem matchesAt_singleton {s : Str} {c : Char} {i : Nat}
    (h : matchesAt s [c] i = true) : s.get? i = some c := by
  unfold matchesAt at h
  have hg : s.get? i = (s.drop i).get? 0 := by
    simp [List.get?_drop]
  rw [hg]
  cases hd : s.drop i with
  | nil => rw [hd] at h; cases h
  | cons b t =>
    rw [hd] at h
    simp only [List.isPrefixOf, Bool.and_eq_true, beq_iff_eq] at h
    simp [h.1]

theorem CodeFormatter.closeSearch_pos_props (code : Str) (sn : Nat) (h : 0 ≤ CodeFormatter.closeSearch code sn) :
    sn + 1 ≤ (CodeFormatter.closeSearch code sn).toNat ∧
      code.get? (CodeFormatter.closeSearch code sn).toNat = some ')' ∧
      (pySlice code sn ((CodeFormatter.closeSearch code sn).toNat + 1)).count '(' =
        (pySlice code sn ((CodeFormatter.closeSearch code sn).toNat + 1)).count ')' := by
  unfold CodeFormatter.closeSearch at *
  split at h
  · next p hp =>
    have hmem := head_opt_mem hp
    simp only [List.mem_filter, List.mem_range, Bool.and_eq_true, decide_eq_true_eq,
      beq_iff_eq] at hmem
    refine ⟨by simpa using hmem.2.1.1, by simpa using hmem.2.1.2, by simpa using hmem.2.2⟩
  · omega

theorem CodeFormatter.closeSearch_neg (code : Str) (sn : Nat) (h : ¬ 0 ≤ CodeFormatter.closeSearch code sn) :
    CodeFormatter.closeSearch code sn = -1 := by
  unfold CodeFormatter.closeSearch at *
  split at h
  · omega
  · rfl

/-- When `findIn` is nonnegative it points at an in-range occurrence after
the start position. -/
theorem findIn_pos_props (s sub : Str) (a b : Nat) (h : 0 ≤ findIn s sub a b) :
    a ≤ (findIn s sub a b).toNat ∧ (findIn s sub a b).toNat + sub.length ≤ b ∧
      matchesAt s sub (findIn s sub a b).toNat = true := by
  unfold findIn at *
  split at h
  · next i hi =>
    have hmem := head_opt_mem hi
    simp only [List.mem_filter, List.mem_range, Bool.and_eq_true, decide_eq_true_eq] at hmem
    simpa using ⟨hmem.2.1.1, hmem.2.1.2, hmem.2.2⟩
  · omega

/-- When `findIn` is negative it is exactly `-1`. -/
theorem findIn_neg (s sub : Str) (a b : Nat) (h : ¬ 0 ≤ findIn s sub a b) :
    findIn s sub a b = -1 := by
  unfold findIn at *
  split at h
  · omega
  · rfl

/-- The head of a filtered `List.range` is the least index satisfying the
predicate: `List.range` is strictly increasing and `filter` preserves the
order. -/
theorem filter_range_head_least {p : Nat → Bool} {n i : Nat}
    (h : ((List.range n).filter p).head? = some i) :
    ∀ j, j < n → p j = true → i ≤ j := by
  intro j hj hpj
  have hjmem : j ∈ (List.range n).filter p :=
    List.mem_filter.mpr ⟨List.mem_range.mpr hj, hpj⟩
  have hpw : ((List.range n).filter p).Pairwise (· < ·) :=
    (List.pairwise_lt_range n).filter p
  cases hx : (List.range n).filter p with
  | nil =>
    rw [hx] at h
    cases h
  | cons a tl =>
    rw [hx] at h hjmem hpw
    simp only [List.head?_cons, Option.some.injEq] at h
    subst h
    rcases List.mem_cons.mp hjmem with h1 | h1
    · exact Nat.le_of_eq h1.symm
    · exact Nat.le_of_lt ((List.pairwise_cons.mp hpw).1 j h1)

/-- A successful `get?` lookup implies the index is in range. -/
theorem get_opt_lt {l : Str} {n : Nat} {c : Char} (h : l.get? n = some c) :
    n < l.length := by
  by_contra hn
  push_neg at hn
  rw [List.get?_eq_none.mpr hn] at h
  cases h

/-- Converse of `matchesAt_singleton`: an indexed lookup gives a
single-character match. -/
theorem matchesAt_singleton_of_get {s : Str} {c : Char} {i : Nat}
    (h : s.get? i = some c) : matchesAt s [c] i = true := by
  unfold matchesAt
  have hg0 : (s.drop i).get? 0 = s.get? i := by
    simp [List.get?_drop]
  have hg : (s.drop i).get? 0 = some c := hg0.trans h
  cases hd : s.drop i with
  | nil => rw [hd] at hg; cases hg
  | cons b t =>
    rw [hd] at hg
    simp only [List.get?_cons_zero, Option.some.injEq] at hg
    subst hg
    simp [List.isPrefixOf]

/-- Completeness and minimality of `findIn`: whenever an in-range
occurrence exists, `findIn` succeeds and returns an index that is at most
any such occurrence. -/
theorem findIn_least (s sub : Str) (a b : Nat) (j : Nat)
    (hj1 : a ≤ j) (hj2 : j + sub.length ≤ b) (hj3 : matchesAt s sub j = true) :
    0 ≤ findIn s sub a b ∧ (findIn s sub a b).toNat ≤ j := by
  have hjmem : j ∈ (List.range (b + 1)).filter fun i =>
      a ≤ i && i + sub.length ≤ b && matchesAt s sub i :=
    List.mem_filter.mpr ⟨List.mem_range.mpr (by omega), by simp [hj1, hj2, hj3]⟩
  unfold findIn
  cases hx : ((List.range (b + 1)).filter fun i =>
      a ≤ i && i + sub.length ≤ b && matchesAt s sub i).head? with
  | none =>
    exfalso
    cases hl : (List.range (b + 1)).filter fun i =>
        a ≤ i && i + sub.length ≤ b && matchesAt s sub i with
    | nil => rw [hl] at hjmem; cases hjmem
    | cons x xs => rw [hl] at hx; cases hx
  | some i =>
    have hle := filter_range_head_least hx j (by omega) (by simp [hj1, hj2, hj3])
    exact ⟨Int.natCast_nonneg i, by simpa using hle⟩

/-- Completeness and minimality of `closeSearch`: whenever a balancing
`")"` exists after `sn`, `closeSearch` succeeds and returns a position at
most any such candidate. -/
theorem CodeFormatter.closeSearch_least (code : Str) (sn q : Nat)
    (hq1 : sn + 1 ≤ q) (hq2 : code.get? q = some ')')
    (hq3 : (pySlice code sn (q + 1)).count '(' = (pySlice code sn (q + 1)).count ')') :
    0 ≤ CodeFormatter.closeSearch code sn ∧ (CodeFormatter.closeSearch code sn).toNat ≤ q := by
  have hqlt : q < code.length := get_opt_lt hq2
  have hq2g : code[q]? = some ')' := by
    rw [← List.get?_eq_getElem?]
    exact hq2
  have hqmem : q ∈ (List.range code.length).filter fun p =>
      sn + 1 ≤ p && code.get? p == some ')' &&
      ((pySlice code sn (p + 1)).count '(' == (pySlice code sn (p + 1)).count ')') :=
    List.mem_filter.mpr ⟨List.mem_range.mpr hqlt, by simp [hq1, hq2g, hq3]⟩
  unfold CodeFormatter.closeSearch
  cases hx : ((List.range code.length).filter fun p =>
      sn + 1 ≤ p && code.get? p == some ')' &&
      ((pySlice code sn (p + 1)).count '(' == (pySlice code sn (p + 1)).count ')')).head? with
  | none =>
    exfalso
    cases hl : (List.range code.length).filter fun p =>
        sn + 1 ≤ p && code.get? p == some ')' &&
        ((pySlice code sn (p + 1)).count '(' == (pySlice code sn (p + 1)).count ')') with
    | nil => rw [hl] at hqmem; cases hqmem
    | cons x xs => rw [hl] at hx; cases hx
  | some i =>
    have hle := filter_range_head_least hx q hqlt (by simp [hq1, hq2g, hq3])
    exact ⟨Int.natCast_nonneg i, by simpa using hle⟩

/-- Exhaustive case analysis of `get_enclosed_subst_pos` (with its default
arguments): the result is `(-1, -1)` with no opener at or after the start
position, or `(-1, -1)` with a first opener that has no balancing closer,
or the first opener paired with its first balancing closer. -/
theorem get_enclosed_subst_pos_cases :
    ∀ (code : Str) (start : Nat) (s e : Int),
      CodeFormatter.get_enclosed_subst_pos code start = (s, e) →
      (s = -1 ∧ e = -1 ∧ ∀ i, ¬ openerSpec code start i) ∨
      (s = -1 ∧ e = -1 ∧ ∃ i, openerSpec code start i ∧
        (∀ j, openerSpec code start j → i ≤ j) ∧ ∀ q, ¬ closerSpec code i q) ∨
      (0 ≤ s ∧ 0 ≤ e ∧
        openerSpec code start s.toNat ∧ (∀ j, openerSpec code start j → s.toNat ≤ j) ∧
        closerSpec code s.toNat e.toNat ∧ ∀ q, closerSpec code s.toNat q → e.toNat ≤ q) := by
  intro code start s e h
  unfold CodeFormatter.get_enclosed_subst_pos at h
  dsimp only at h
  split at h
  · next hs =>
    have hfind := findIn_pos_props code ['('] start code.length hs
    have hopen : openerSpec code start (findIn code ['('] start code.length).toNat :=
      ⟨hfind.1, matchesAt_singleton hfind.2.2⟩
    have hmin : ∀ j, openerSpec code start j →
        (findIn code ['('] start code.length).toNat ≤ j := by
      intro j hj
      have hlt := get_opt_lt hj.2
      exact (findIn_least code ['('] start code.length j hj.1 (by simpa using hlt)
        (matchesAt_singleton_of_get hj.2)).2
    split at h
    · next hneg =>
      cases h
      refine Or.inr (Or.inl ⟨rfl, CodeFormatter.closeSearch_neg _ _ (by omega),
        (findIn code ['('] start code.length).toNat, hopen, hmin, ?_⟩)
      intro q hq
      have := CodeFormatter.closeSearch_least code
        (findIn code ['('] start code.length).toNat q hq.1 hq.2.1 hq.2.2
      omega
    · next hneg =>
      cases h
      have hcs : 0 ≤ CodeFormatter.closeSearch code
          (findIn code ['('] start code.length).toNat := by omega
      have hclose := CodeFormatter.closeSearch_pos_props code
        (findIn code ['('] start code.length).toNat hcs
      refine Or.inr (Or.inr ⟨hs, hcs, hopen, hmin,
        ⟨hclose.1, hclose.2.1, hclose.2.2⟩, ?_⟩)
      intro q hq
      exact (CodeFormatter.closeSearch_least code
        (findIn code ['('] start code.length).toNat q hq.1 hq.2.1 hq.2.2).2
  · next hs =>
    rw [findIn_neg code ['('] start code.length hs] at h
    cases h
    refine Or.inl ⟨rfl, rfl, ?_⟩
    intro i hi
    have hlt := get_opt_lt hi.2
    have := findIn_least code ['('] start code.length i hi.1 (by simpa using hlt)
      (matchesAt_singleton_of_get hi.2)
    exact hs this.1

/-- C4, amended: the exact characterization of `get_enclosed_subst_pos`
(with its default arguments).  First conjunct: the result is `(-1, -1)` in
precisely two cases — no `(` occurs at or after the start position, or the
first such `(` has no later `)` making the enclosed slice's `(`/`)` counts
equal — and otherwise it is the position of the first `(` at or after the
start position together with the first such balancing `)`, both returned
with their minimality.  Second conjunct, the success direction made
explicit: whenever a first opener exists and some balancing closer for it
exists, the function returns exactly that opener with the least balancing
closer.  No condition on the text before the `(` is imposed anywhere: the
source's `re.match` guard with the default pattern `\s*` always succeeds,
so a non-whitespace prefix (as in `x + f(a)`, which yields `(5, 7)`) does
not force `(-1, -1)`. -/
theorem c4_get_enclosed_characterization :
    (∀ (code : Str) (start : Nat) (s e : Int),
      CodeFormatter.get_enclosed_subst_pos code start = (s, e) →
      (s = -1 ∧ e = -1 ∧ ∀ i, ¬ openerSpec code start i) ∨
      (s = -1 ∧ e = -1 ∧ ∃ i, openerSpec code start i ∧
        (∀ j, openerSpec code start j → i ≤ j) ∧ ∀ q, ¬ closerSpec code i q) ∨
      (0 ≤ s ∧ 0 ≤ e ∧
        openerSpec code start s.toNat ∧ (∀ j, openerSpec code start j → s.toNat ≤ j) ∧
        closerSpec code s.toNat e.toNat ∧ ∀ q, closerSpec code s.toNat q → e.toNat ≤ q)) ∧
    (∀ (code : Str) (start : Nat) (i q : Nat),
      openerSpec code start i → (∀ j, openerSpec code start j → i ≤ j) →
      closerSpec code i q →
      ∃ en : Nat, CodeFormatter.get_enclosed_subst_pos code start = ((i : Int), (en : Int)) ∧
        closerSpec code i en ∧ ∀ r, closerSpec code i r → en ≤ r) := by
  refine ⟨get_enclosed_subst_pos_cases, ?_⟩
  intro code start i q hop hmin hcl
  rcases hres : CodeFormatter.get_enclosed_subst_pos code start with ⟨s, e⟩
  rcases get_enclosed_subst_pos_cases code start s e hres with h1 | h2 | h3
  · exact (h1.2.2 i hop).elim
  · rcases h2.2.2 with ⟨j, hop', hmin', hnc⟩
    have hji : j = i := Nat.le_antisymm (hmin' i hop) (hmin j hop')
    subst hji
    exact (hnc q hcl).elim
  · obtain ⟨hs0, he0, hop', hmin', hcl', hleast'⟩ := h3
    have hsi : s.toNat = i := Nat.le_antisymm (hmin' i hop) (hmin s.toNat hop')
    rw [hsi] at hcl' hleast'
    refine ⟨e.toNat, ?_, hcl', hleast'⟩
    rw [Prod.mk.injEq]
    constructor
    · rw [← hsi]
      exact (Int.toNat_of_nonneg hs0).symm
    · exact (Int.toNat_of_nonneg he0).symm

/-- C4 witness: the first conjunct of the characterization at the concrete
input `x + f(a)` from position 0, whose result is `(5, 7)`. -/
theorem c4_witness :
    ((5 : Int) = -1 ∧ (7 : Int) = -1 ∧ ∀ i, ¬ openerSpec ("x + f(a)".toList) 0 i) ∨
    ((5 : Int) = -1 ∧ (7 : Int) = -1 ∧ ∃ i, openerSpec ("x + f(a)".toList) 0 i ∧
      (∀ j, openerSpec ("x + f(a)".toList) 0 j → i ≤ j) ∧
      ∀ q, ¬ closerSpec ("x + f(a)".toList) i q) ∨
    (0 ≤ (5 : Int) ∧ 0 ≤ (7 : Int) ∧
      openerSpec ("x + f(a)".toList) 0 (5 : Int).toNat ∧
      (∀ j, openerSpec ("x + f(a)".toList) 0 j → (5 : Int).toNat ≤ j) ∧
      closerSpec ("x + f(a)".toList) (5 : Int).toNat (7 : Int).toNat ∧
      ∀ q, closerSpec ("x + f(a)".toList) (5 : Int).toNat q → (7 : Int).toNat ≤ q) :=
  c4_get_enclosed_characterization.1 ("x + f(a)".toList) 0 5 7 (by decide)

theorem rstrip_subset (l : Str) : rstrip l ⊆ l := by
  intro x hx
  unfold rstrip at hx
  rw [List.mem_reverse] at hx
  have := (List.dropWhile_sublist (l := l.reverse) (p := isPySpace)).subset hx
  rwa [List.mem_reverse] at this

theorem no_bs_no_suffix (line : Str) (h : ∀ c ∈ line, c ≠ '\\') :
    ['\\'].isSuffixOf (rstrip line) = false := by
  by_contra hbs
  rw [Bool.not_eq_false, List.isSuffixOf_iff_suffix] at hbs
  have : '\\' ∈ rstrip line := hbs.subset (List.mem_singleton_self _)
  exact h _ (rstrip_subset line this) rfl

/-- Model of `lineContM` cannot match in a backslash-free string. -/
theorem lineContM_no_bs (rep : Str) (b : Bool) (s : Str) (h : ∀ c ∈ s, c ≠ '\\') :
    CodeFormatter.lineContM rep b s = none := by
  unfold CodeFormatter.lineContM
  dsimp only
  split
  · next r2 heq =>
    exfalso
    have h1 : '\\' ∈ s.drop (s.takeWhile isHTab).length := by
      rw [heq]
      exact List.mem_cons_self _ _
    exact h _ (List.drop_subset _ _ h1) rfl
  · rfl

/-- The regex `remove_line_escapes` is the identity on backslash-free
text. -/
theorem reSubGo_lineCont_id (rep : Str) :
    ∀ (n : Nat) (b : Bool) (s : Str), (∀ c ∈ s, c ≠ '\\') →
      reSubGo (CodeFormatter.lineContM rep) n b s = s := by
  intro n
  induction n with
  | zero => intro b s _; rfl
  | succ n ih =>
    intro b s h
    cases s with
    | nil => rfl
    | cons c t =>
      simp only [reSubGo]
      rw [lineContM_no_bs rep b (c :: t) h]
      exact congrArg (c :: ·) (ih _ t fun x hx => h x (List.mem_cons_of_mem _ hx))

theorem remove_line_escapes_id (code : Str) (kn : Bool) (h : ∀ c ∈ code, c ≠ '\\') :
    CodeFormatter.remove_line_escapes code kn = code := by
  unfold CodeFormatter.remove_line_escapes reSubM
  exact reSubGo_lineCont_id _ _ _ _ h

theorem splitlines_ne_nil (c : Char) (t : Str) : splitlines (c :: t) ≠ [] := by
  cases t with
  | nil =>
    simp only [splitlines]
    split
    all_goals simp
  | cons d t2 =>
    simp only [splitlines]
    repeat' split
    all_goals simp

/-- The non-line-break unfolding of `splitlines`. -/
theorem splitlines_cons_other (c : Char) (t : Str) (hc : isLineBreak c = false) :
    splitlines (c :: t) = match splitlines t with
      | [] => [[c]]
      | l :: ls => (c :: l) :: ls := by
  have hcr : c ≠ '\x0d' := by
    intro he
    subst he
    simp [isLineBreak] at hc
  cases t with
  | nil =>
    simp only [splitlines]
    rw [if_neg (by simp [hc])]
  | cons d t2 =>
    simp only [splitlines]
    rw [if_neg (by simp [hcr]), if_neg (by simp [hc])]

/-- Rejoining the lines of `splitlines` with trailing newlines recovers the
text plus a final newline, for nonempty text whose only line-break
character is `'\n'` and which does not end in one. -/
theorem join_splitlines :
    ∀ code : Str, code ≠ [] →
      (∀ c ∈ code, isLineBreak c = true → c = '\n') →
      code.getLast? ≠ some '\n' →
      ((splitlines code).map (fun l => l ++ ['\n'])).flatten = code ++ ['\n'] := by
  intro code
  induction code with
  | nil => intro h; cases h rfl
  | cons c t ih =>
    intro _ hbr hlast
    by_cases hc : isLineBreak c = true
    · have hcn : c = '\n' := hbr c (List.mem_cons_self _ _) hc
      subst hcn
      cases t with
      | nil => simp at hlast
      | cons d t2 =>
        have huf : splitlines ('\n' :: d :: t2) = [] :: splitlines (d :: t2) := rfl
        rw [huf]
        simp only [List.map_cons, List.flatten_cons, List.nil_append]
        rw [ih (by simp) (fun x hx => hbr x (List.mem_cons_of_mem _ hx))
          (by rwa [List.getLast?_cons_cons] at hlast)]
        rfl
    · rw [splitlines_cons_other c t (by simpa using hc)]
      cases t with
      | nil => rfl
      | cons d t2 =>
        obtain ⟨l0, ls, hsp⟩ : ∃ l0 ls, splitlines (d :: t2) = l0 :: ls := by
          cases hx : splitlines (d :: t2) with
          | nil => exact absurd hx (splitlines_ne_nil d t2)
          | cons a b => exact ⟨a, b, rfl⟩
        have hih := ih (by simp) (fun x hx => hbr x (List.mem_cons_of_mem _ hx))
          (by rwa [List.getLast?_cons_cons] at hlast)
        rw [hsp] at hih ⊢
        simp only [List.map_cons, List.flatten_cons, List.cons_append, List.append_assoc,
          List.singleton_append] at hih ⊢
        rw [hih]

/-- With no backslash in any line, the fold of the line-based
implementation appends each line plus a newline. -/
theorem utils_foldl_eq (kn : Bool) :
    ∀ (lines : List Str) (acc : Str),
      (∀ l ∈ lines, ∀ c ∈ l, c ≠ '\\') →
      lines.foldl (fun out line =>
        if ['\\'].isSuffixOf (rstrip line) then
          let line2 := rstrip (line.take (line.length - 1))
          if kn then out ++ line2 ++ ['\n']
          else out ++ lstrip line2 ++ [' ']
        else out ++ line ++ ['\n']) acc =
      acc ++ (lines.map (fun l => l ++ ['\n'])).flatten := by
  intro lines
  induction lines with
  | nil => intro acc _; simp
  | cons l rest ih =>
    intro acc h
    simp only [List.foldl_cons]
    rw [if_neg (by simp [no_bs_no_suffix l (h l (List.mem_cons_self _ _))])]
    rw [ih _ (fun x hx => h x (List.mem_cons_of_mem _ hx))]
    simp

/-- C9, amended: the two implementations agree on every input that
contains no backslash (so no line escape is present), whose only
line-break character is `'\n'`, and that does not end with a newline —
for both values of `keep_newlines` both are then the identity.  In
general they differ (see the counterexample `"\n"`; with escapes present
they also treat inner whitespace and separators differently). -/
theorem c9_remove_line_escapes_agreement :
    ∀ (code : Str) (kn : Bool),
      (∀ c ∈ code, c ≠ '\\') →
      (∀ c ∈ code, isLineBreak c = true → c = '\n') →
      code.getLast? ≠ some '\n' →
      remove_line_escapes_utils code kn = CodeFormatter.remove_line_escapes code kn := by
  intro code kn h1 h2 h3
  rw [remove_line_escapes_id code kn h1]
  cases code with
  | nil => rfl
  | cons c t =>
    have hjoin := join_splitlines (c :: t) (by simp) h2 h3
    have hlines : ∀ l ∈ splitlines (c :: t), ∀ ch ∈ l, ch ≠ '\\' := by
      intro l hl ch hch heq
      subst heq
      have hmem : '\\' ∈ ((splitlines (c :: t)).map (fun l => l ++ ['\n'])).flatten := by
        rw [List.mem_flatten]
        exact ⟨l ++ ['\n'], List.mem_map_of_mem _ hl, by simp [hch]⟩
      rw [hjoin] at hmem
      rcases List.mem_append.mp hmem with hm | hm
      · exact h1 _ hm rfl
      · simp at hm
    unfold remove_line_escapes_utils
    rw [utils_foldl_eq kn _ [] hlines, hjoin]
    simp only [List.nil_append]
    rw [List.take_left' (by simp)]

/-- C9 witness: the amended agreement at the concrete input `"ab\ncd"`. -/
theorem c9_witness :
    remove_line_escapes_utils ("ab\ncd".toList) false =
      CodeFormatter.remove_line_escapes ("ab\ncd".toList) false :=
  c9_remove_line_escapes_agreement ("ab\ncd".toList) false (by decide) (by decide) (by decide)
